import Mathlib

/-! # JTAG bit-serial transaction engine (MT006 driver, jtag.c)

A shallow embedding of `src/vsf/vsf_private/hal/driver/MIC/MT006/jtag.c`.

* Machine integers are natural numbers, reduced modulo `2^8`, `2^32` or `2^64`
  where the C type truncates.
* The pins are a log of line events (`Port.trace`) plus a count of TDO reads; the
  level of the TDO pin at its n-th read is given by a stream `Nat → Bool`.
* A `uint64_t` scratch reinterpreted as `uint8_t *` is read little-endian
  (`scratch_byte`), and the bytes an engine stores through `tdo` are collected
  in order (`Engine.out`) and laid over the scratch by `store_bytes`.
-/

namespace Jtag

/-! ## Constants (jtag.c lines 13-16) -/

/-- Direction bit of a request, `1U << 1`. -/
def DAP_TRANSFER_RnW : Nat := 1 <<< 1

/-- Acknowledge value OK, `1U << 0`. -/
def DAP_TRANSFER_OK : Nat := 1 <<< 0

/-- Acknowledge value WAIT, `1U << 1`. -/
def DAP_TRANSFER_WAIT : Nat := 1 <<< 1

/-- Truncation to `uint8_t`. -/
def u8 (x : Nat) : Nat := x % 2 ^ 8

/-- Truncation to `uint32_t` (also `uint_fast32_t` on this 32-bit target). -/
def u32 (x : Nat) : Nat := x % 2 ^ 32

/-- Truncation to `uint64_t`. -/
def u64 (x : Nat) : Nat := x % 2 ^ 64

/-! ## Pins -/

/-- The three output pins driven by the shift engines. -/
inductive Pin
  | TDI
  | TMS
  | TCK
  deriving DecidableEq, Repr

/-- The four calibrated busy-wait routines (jtag.c lines 92-121). -/
inductive DelayFn
  | delay_jtag_2000khz_1500khz
  | delay_jtag_1000khz_750khz
  | delay_jtag_500khz_375khz
  | delay_jtag_250khz_188khz
  deriving DecidableEq, Repr

/-- One observable action on the pins, or one call of a delay routine. -/
inductive LineEvent
  /-- The macro `IO_SET` on an output pin. -/
  | set (p : Pin)
  /-- The macro `IO_CLEAR` on an output pin. -/
  | clear (p : Pin)
  /-- The macro `IO_GET_80_or_00` on the TDO pin, with the level it saw. -/
  | get (level : Bool)
  /-- A call `jtag_control.jtag_delay(jtag_control.delay_tick)`. -/
  | delay (f : DelayFn) (tick : Nat)
  deriving DecidableEq, Repr

/-- The pins as seen from outside: every event so far, oldest first, and the
number of TDO reads made so far. -/
structure Port where
  trace : List LineEvent
  reads : Nat
  deriving DecidableEq, Repr

/-- Append one event to the log. -/
def Port.emit (p : Port) (e : LineEvent) : Port :=
  { p with trace := p.trace ++ [e] }

/-- Read the TDO pin: the stream `line` gives the level at each read. -/
def Port.sample (line : Nat → Bool) (p : Port) : Bool × Port :=
  (line p.reads, { trace := p.trace ++ [LineEvent.get (line p.reads)], reads := p.reads + 1 })

/-- The `uint8_t` locals `tms_last`, `tdi_last`, `tdo_last` of an engine. -/
structure Regs where
  tms_last : Nat
  tdi_last : Nat
  tdo_last : Nat
  deriving DecidableEq, Repr

/-! ## One clock cycle (the body of every `do { ... } while` in the engines) -/

/-- Body of the bit loop in the unthrottled engines (`jtag_rw_quick`,
`jtag_rw_dr_quick`): the delay calls are commented out. -/
def cycle_quick (line : Nat → Bool) (p : Port) (r : Regs) : Port × Regs :=
  let p := p.emit (if r.tdi_last &&& 0x1 ≠ 0 then LineEvent.set Pin.TDI else LineEvent.clear Pin.TDI)
  let p := p.emit (if r.tms_last &&& 0x1 ≠ 0 then LineEvent.set Pin.TMS else LineEvent.clear Pin.TMS)
  let p := p.emit (LineEvent.clear Pin.TCK)
  let tms_last := r.tms_last >>> 1
  let tdi_last := r.tdi_last >>> 1
  let tdo_last := r.tdo_last >>> 1
  let p := p.emit (LineEvent.set Pin.TCK)
  let s := p.sample line
  (s.2, { tms_last := tms_last, tdi_last := tdi_last,
          tdo_last := tdo_last ||| (if s.1 then 0x80 else 0x00) })

/-- The statement `if (jtag_control.jtag_delay) jtag_control.jtag_delay(jtag_control.delay_tick);`. -/
def call_delay (jtag_delay : Option DelayFn) (delay_tick : Nat) (p : Port) : Port :=
  match jtag_delay with
  | none => p
  | some f => p.emit (LineEvent.delay f delay_tick)

/-- Body of the bit loop in the throttled engines (`jtag_rw_slow`,
`jtag_rw_dr_slow`). -/
def cycle_slow (jtag_delay : Option DelayFn) (delay_tick : Nat)
    (line : Nat → Bool) (p : Port) (r : Regs) : Port × Regs :=
  let p := p.emit (if r.tdi_last &&& 0x1 ≠ 0 then LineEvent.set Pin.TDI else LineEvent.clear Pin.TDI)
  let p := p.emit (if r.tms_last &&& 0x1 ≠ 0 then LineEvent.set Pin.TMS else LineEvent.clear Pin.TMS)
  let p := p.emit (LineEvent.clear Pin.TCK)
  let p := call_delay jtag_delay delay_tick p
  let tms_last := r.tms_last >>> 1
  let tdi_last := r.tdi_last >>> 1
  let tdo_last := r.tdo_last >>> 1
  let p := p.emit (LineEvent.set Pin.TCK)
  let p := call_delay jtag_delay delay_tick p
  let s := p.sample line
  (s.2, { tms_last := tms_last, tdi_last := tdi_last,
          tdo_last := tdo_last ||| (if s.1 then 0x80 else 0x00) })

/-- The loop `do { body; counter--; } while (counter);` entered with a counter
`n > 0` (8 for a whole byte, 1..7 for a tail): the body runs `n` times. -/
def bit_loop (cycle : Port → Regs → Port × Regs) : Nat → Port → Regs → Port × Regs
  | 0, p, r => (p, r)
  | n + 1, p, r => bit_loop cycle n (cycle p r).1 (cycle p r).2

/-! ## Engine state and the byte-level structure shared by the four engines -/

/-- A running shift: the pins, how many bytes `tms` and `tdi` have advanced,
the accumulator `tdo_last`, and the bytes stored through `tdo` so far
(`out[i]` is what was stored to `tdo[i]`; `tdo` has advanced `out.length`
bytes, or one less after a tail store, which does not advance it). -/
structure Engine where
  port : Port
  rd : Nat
  tdo_last : Nat
  out : List Nat
  deriving DecidableEq, Repr

/-- One whole byte: `bits = 8; tms_last = *tms++; tdi_last = *tdi++;
do { ... } while (bits); *tdo++ = tdo_last;`. The buffers are given as
byte-indexed memories. -/
def shift_byte (cycle : Port → Regs → Port × Regs) (tms tdi : Nat → Nat) (e : Engine) : Engine :=
  let r := bit_loop cycle 8 e.port
    { tms_last := u8 (tms e.rd), tdi_last := u8 (tdi e.rd), tdo_last := e.tdo_last }
  { port := r.1, rd := e.rd + 1, tdo_last := r.2.tdo_last, out := e.out ++ [r.2.tdo_last] }

/-- The loop `while (bitlen >= 8) { bitlen -= 8; <one whole byte> }`; returns
the remaining `bitlen` (below 8) with the engine state. -/
def whole_bytes (cycle : Port → Regs → Port × Regs) (tms tdi : Nat → Nat) :
    Nat → Engine → Nat × Engine
  | bitlen + 8, e => whole_bytes cycle tms tdi bitlen (shift_byte cycle tms tdi e)
  | bitlen, e => (bitlen, e)

/-- The final partial byte: `if (bitlen) { bits = 8 - bitlen; tms_last = *tms;
tdi_last = *tdi; tdo_last = 0; do { ... bitlen--; } while (bitlen);
*tdo = tdo_last >> bits; }`. -/
def shift_tail (cycle : Port → Regs → Port × Regs) (tms tdi : Nat → Nat)
    (bitlen : Nat) (e : Engine) : Engine :=
  if bitlen ≠ 0 then
    let bits := u8 (8 - bitlen)
    let r := bit_loop cycle bitlen e.port
      { tms_last := u8 (tms e.rd), tdi_last := u8 (tdi e.rd), tdo_last := 0 }
    { port := r.1, rd := e.rd, tdo_last := r.2.tdo_last, out := e.out ++ [r.2.tdo_last >>> bits] }
  else e

/-- Flat shift (the common text of `jtag_rw_quick` and `jtag_rw_slow`):
whole bytes, then the tail. `junk` is the indeterminate initial value of the
uninitialised local `tdo_last`. -/
def flat_shift (cycle : Port → Regs → Port × Regs) (bitlen : Nat) (tms tdi : Nat → Nat)
    (junk : Nat) (p : Port) : Engine :=
  let w := whole_bytes cycle tms tdi bitlen
    { port := p, rd := 0, tdo_last := u8 junk, out := [] }
  shift_tail cycle tms tdi w.1 w.2

/-- Split shift (the common text of `jtag_rw_dr_quick` and `jtag_rw_dr_slow`):
the head byte, then the block under `#if 0` (compiled out, so `bytelen_dma`
is not used), then the `while (bitlen_tail >= 8)` loop and the tail. -/
def split_shift (cycle : Port → Regs → Port × Regs) (bytelen_dma bitlen_tail : Nat)
    (tms tdi : Nat → Nat) (junk : Nat) (p : Port) : Engine :=
  -- head
  let h := shift_byte cycle tms tdi { port := p, rd := 0, tdo_last := u8 junk, out := [] }
  -- dma: `#if 0 ... #endif`
  let _unused := bytelen_dma
  let w := whole_bytes cycle tms tdi bitlen_tail h
  shift_tail cycle tms tdi w.1 w.2

/-- Source function `jtag_rw_quick` (jtag.c lines 270-333). -/
def jtag_rw_quick (line : Nat → Bool) (bitlen : Nat) (tms tdi : Nat → Nat)
    (junk : Nat) (p : Port) : Engine :=
  flat_shift (cycle_quick line) bitlen tms tdi junk p

/-- Source function `jtag_rw_slow` (jtag.c lines 334-397); it reads
`jtag_control.jtag_delay` and `jtag_control.delay_tick`. -/
def jtag_rw_slow (jtag_delay : Option DelayFn) (delay_tick : Nat) (line : Nat → Bool)
    (bitlen : Nat) (tms tdi : Nat → Nat) (junk : Nat) (p : Port) : Engine :=
  flat_shift (cycle_slow jtag_delay delay_tick line) bitlen tms tdi junk p

/-- Source function `jtag_rw_dr_quick` (jtag.c lines 399-502). -/
def jtag_rw_dr_quick (line : Nat → Bool) (bytelen_dma bitlen_tail : Nat) (tms tdi : Nat → Nat)
    (junk : Nat) (p : Port) : Engine :=
  split_shift (cycle_quick line) bytelen_dma bitlen_tail tms tdi junk p

/-- Source function `jtag_rw_dr_slow` (jtag.c lines 503-606). -/
def jtag_rw_dr_slow (jtag_delay : Option DelayFn) (delay_tick : Nat) (line : Nat → Bool)
    (bytelen_dma bitlen_tail : Nat) (tms tdi : Nat → Nat) (junk : Nat) (p : Port) : Engine :=
  split_shift (cycle_slow jtag_delay delay_tick line) bytelen_dma bitlen_tail tms tdi junk p

/-! ## The control block (jtag.c lines 27-38) -/

/-- Values of the function pointer `jtag_control.jtag_rw`. -/
inductive RwFn
  | jtag_rw_quick
  | jtag_rw_slow
  deriving DecidableEq, Repr

/-- Values of the function pointer `jtag_control.jtag_rw_dr`. -/
inductive RwDrFn
  | jtag_rw_dr_quick
  | jtag_rw_dr_slow
  deriving DecidableEq, Repr

/-- The struct `jtag_control_t` (without the optional timestamp); a null
function pointer is `none`. -/
structure jtag_control_t where
  idle : Nat
  retry_limit : Nat
  delay_tick : Nat
  jtag_rw : Option RwFn
  jtag_rw_dr : Option RwDrFn
  jtag_delay : Option DelayFn
  deriving DecidableEq, Repr

/-- A call through a non-null `jtag_control.jtag_rw_dr`. -/
def call_rw_dr (ctl : jtag_control_t) (f : RwDrFn) (line : Nat → Bool)
    (dma_bytes bits_tail : Nat) (tms tdi : Nat → Nat) (junk : Nat) (p : Port) : Engine :=
  match f with
  | RwDrFn.jtag_rw_dr_quick => jtag_rw_dr_quick line dma_bytes bits_tail tms tdi junk p
  | RwDrFn.jtag_rw_dr_slow =>
      jtag_rw_dr_slow ctl.jtag_delay ctl.delay_tick line dma_bytes bits_tail tms tdi junk p

/-! ## The 64-bit scratch seen as bytes -/

/-- Byte `i` of a `uint64_t` seen through `(uint8_t *)&buf` on this
little-endian target. Bytes past the eighth are outside the object; the model
reads 0 there. -/
def scratch_byte (buf : Nat) (i : Nat) : Nat := (buf >>> (8 * i)) % 256

/-- The scratch after the engine stored `out[0]`, `out[1]`, ... to its bytes
0, 1, ...: stored bytes replace the old ones, the others keep their value.
Stores past the eighth byte fall outside the object and are not modelled. -/
def store_bytes (buf : Nat) (out : List Nat) : Nat :=
  ((List.range 8).map (fun i => (out.getD i (scratch_byte buf i)) <<< (8 * i))).sum

/-- Unsigned 32-bit subtraction `a - b`, wrapping below zero. -/
def usub32 (a b : Nat) : Nat := (a + 2 ^ 32 - b % 2 ^ 32) % 2 ^ 32

/-! ## DR scan encoder (jtag.c lines 221-249) -/

/-- What `vsfhal_jtag_dr` has built when it reaches its retry loop. -/
structure DrScan where
  buf_tms : Nat
  buf_tdi : Nat
  bitlen : Nat
  dma_bytes : Nat
  bits_tail : Nat
  deriving DecidableEq, Repr

/-- Lines 221-249 of `vsfhal_jtag_dr`, statement by statement. A shift of a
`uint64_t` by 64 or more is undefined in C; the model yields 0 there. -/
def dr_encode (idle request dr dr_before dr_after : Nat) : DrScan :=
  let buf_tdi := 0
  -- Select-DR-Scan, Capture-DR, Shift-DR
  let buf_tms := 0x1
  let bitlen := 3
  -- Bypass before data
  let bitlen := u32 (bitlen + dr_before)
  -- RnW, A2, A3
  let buf_tdi := buf_tdi ||| u64 (((request >>> 1) &&& 0x7) <<< bitlen)
  let bitlen := u32 (bitlen + 3)
  -- Data Transfer
  let buf_tdi := if request &&& DAP_TRANSFER_RnW = 0 then buf_tdi ||| u64 (dr <<< bitlen) else buf_tdi
  let bitlen := u32 (bitlen + u32 (31 + dr_after))
  let dma_bytes := (usub32 bitlen 8) >>> 3
  let buf_tms := buf_tms ||| u64 (0x1 <<< bitlen)
  let bitlen := u32 (bitlen + 1)
  -- Update-DR, Idle
  let buf_tms := buf_tms ||| u64 (0x1 <<< bitlen)
  let bitlen := u32 (bitlen + (1 + idle))
  let buf_tdi := buf_tdi ||| u64 (0x1 <<< bitlen)
  let bitlen := u32 (bitlen + 1)
  let bits_tail := usub32 (usub32 bitlen 8) (u32 (dma_bytes <<< 3))
  { buf_tms := buf_tms, buf_tdi := buf_tdi, bitlen := bitlen,
    dma_bytes := dma_bytes, bits_tail := bits_tail }

/-! ## Retry loop and result (jtag.c lines 256-267) -/

/-- Everything outside the program that a DR transfer depends on: the level of
the TDO pin at its n-th read, the indeterminate initial value of the engine
local `tdo_last` at the n-th engine call, and the indeterminate initial
content of the uninitialised scratch `buf_tdo`. -/
structure Env where
  line : Nat → Bool
  junk : Nat → Nat
  buf_tdo : Nat

/-- State carried round the retry loop: the TDO scratch, the pins, and the
number of engine calls made so far. -/
structure DrState where
  buf_tdo : Nat
  port : Port
  attempts : Nat
  deriving DecidableEq, Repr

/-- The statement of line 260,
`ack = (ack & 0x4) | ((ack & 0x2) >> 1) | ((ack & 0x1) << 1);`. -/
def ack_reorder (ack : Nat) : Nat :=
  (ack &&& 0x4) ||| ((ack &&& 0x2) >>> 1) ||| ((ack &&& 0x1) <<< 1)

/-- The two statements decoding the acknowledge (lines 259-260). -/
def decode_ack (buf_tdo dr_before : Nat) : Nat :=
  let ack := (buf_tdo >>> u32 (dr_before + 3)) &&& 0x7
  ack_reorder ack

/-- One pass through the loop body up to the test of `ack` (lines 258-260):
the engine call, then the decode. Returns `ack` and the new state. -/
def dr_attempt (ctl : jtag_control_t) (f : RwDrFn) (env : Env) (sc : DrScan)
    (dr_before : Nat) (s : DrState) : Nat × DrState :=
  let e := call_rw_dr ctl f env.line sc.dma_bytes sc.bits_tail
    (scratch_byte sc.buf_tms) (scratch_byte sc.buf_tdi) (env.junk s.attempts) s.port
  let buf_tdo := store_bytes s.buf_tdo e.out
  (decode_ack buf_tdo dr_before,
   { buf_tdo := buf_tdo, port := e.port, attempts := s.attempts + 1 })

/-- The loop `do { ...; if (ack != DAP_TRANSFER_WAIT) break; }
while (retry++ < jtag_control.retry_limit);`. The C counter `retry` runs
upward from 0; the first argument here is `retry_limit - retry`, the number
of retries still allowed, which is 0 exactly when `retry < retry_limit`
fails. -/
def dr_retry (ctl : jtag_control_t) (f : RwDrFn) (env : Env) (sc : DrScan)
    (dr_before : Nat) : Nat → DrState → Nat × DrState
  | 0, s => dr_attempt ctl f env sc dr_before s
  | left + 1, s =>
      if (dr_attempt ctl f env sc dr_before s).1 ≠ DAP_TRANSFER_WAIT then
        dr_attempt ctl f env sc dr_before s
      else
        dr_retry ctl f env sc dr_before left (dr_attempt ctl f env sc dr_before s).2

/-- Modelled from the spec: the helper `put_unaligned_le32(val, p)` is not in
the source file; the spec says the 32-bit result is written out in a fixed
little-endian byte order. It stores the four bytes of the `uint32_t` value at
`p[0..3]`, lowest byte first; the rest of the caller memory is kept. -/
def put_unaligned_le32 (val : Nat) (p : List Nat) : List Nat :=
  [u32 val % 256, (u32 val >>> 8) % 256, (u32 val >>> 16) % 256, (u32 val >>> 24) % 256]
    ++ p.drop 4

/-- What a call of `vsfhal_jtag_dr` leaves behind. -/
structure DrResult where
  /-- The returned value. -/
  ack : Nat
  /-- The caller memory behind `data` after the call (`none` for a null pointer). -/
  data : Option (List Nat)
  /-- Number of calls of `jtag_control.jtag_rw_dr` made. -/
  attempts : Nat
  /-- The scratch `buf_tdo` when the function returns. -/
  buf_tdo : Nat
  /-- The pins when the function returns. -/
  port : Port
  deriving DecidableEq, Repr

/-- Source function `vsfhal_jtag_dr` (jtag.c lines 216-268). `data` is the
caller memory behind the pointer, `none` for a null pointer. The result is
`none` when `jtag_control.jtag_rw_dr` is null (the call cannot be made). The
timestamp block under `#if TIMESTAMP_CLOCK` touches no modelled state. -/
def vsfhal_jtag_dr (ctl : jtag_control_t) (env : Env) (request dr dr_before dr_after : Nat)
    (data : Option (List Nat)) (p : Port) : Option DrResult :=
  match ctl.jtag_rw_dr with
  | none => none
  | some f =>
    let sc := dr_encode ctl.idle request dr dr_before dr_after
    let r := dr_retry ctl f env sc dr_before ctl.retry_limit
      { buf_tdo := u64 env.buf_tdo, port := p, attempts := 0 }
    some
      { ack := r.1
        data := match data with
          | none => none
          | some mem => some (put_unaligned_le32 (r.2.buf_tdo >>> u32 (dr_before + 6)) mem)
        attempts := r.2.attempts
        buf_tdo := r.2.buf_tdo
        port := r.2.port }

/-! ## IEEE 1149.1 TAP controller (the reference the TMS encodings are checked against) -/

/-- The sixteen states of the TAP controller. -/
inductive TapState
  | TestLogicReset | RunTestIdle
  | SelectDRScan | CaptureDR | ShiftDR | Exit1DR | PauseDR | Exit2DR | UpdateDR
  | SelectIRScan | CaptureIR | ShiftIR | Exit1IR | PauseIR | Exit2IR | UpdateIR
  deriving DecidableEq, Repr

/-- State entered on a rising TCK edge with the given TMS level. -/
def tap_step : TapState → Bool → TapState
  | TapState.TestLogicReset, true => TapState.TestLogicReset
  | TapState.TestLogicReset, false => TapState.RunTestIdle
  | TapState.RunTestIdle, true => TapState.SelectDRScan
  | TapState.RunTestIdle, false => TapState.RunTestIdle
  | TapState.SelectDRScan, true => TapState.SelectIRScan
  | TapState.SelectDRScan, false => TapState.CaptureDR
  | TapState.CaptureDR, true => TapState.Exit1DR
  | TapState.CaptureDR, false => TapState.ShiftDR
  | TapState.ShiftDR, true => TapState.Exit1DR
  | TapState.ShiftDR, false => TapState.ShiftDR
  | TapState.Exit1DR, true => TapState.UpdateDR
  | TapState.Exit1DR, false => TapState.PauseDR
  | TapState.PauseDR, true => TapState.Exit2DR
  | TapState.PauseDR, false => TapState.PauseDR
  | TapState.Exit2DR, true => TapState.UpdateDR
  | TapState.Exit2DR, false => TapState.ShiftDR
  | TapState.UpdateDR, true => TapState.SelectDRScan
  | TapState.UpdateDR, false => TapState.RunTestIdle
  | TapState.SelectIRScan, true => TapState.TestLogicReset
  | TapState.SelectIRScan, false => TapState.CaptureIR
  | TapState.CaptureIR, true => TapState.Exit1IR
  | TapState.CaptureIR, false => TapState.ShiftIR
  | TapState.ShiftIR, true => TapState.Exit1IR
  | TapState.ShiftIR, false => TapState.ShiftIR
  | TapState.Exit1IR, true => TapState.UpdateIR
  | TapState.Exit1IR, false => TapState.PauseIR
  | TapState.PauseIR, true => TapState.Exit2IR
  | TapState.PauseIR, false => TapState.PauseIR
  | TapState.Exit2IR, true => TapState.UpdateIR
  | TapState.Exit2IR, false => TapState.ShiftIR
  | TapState.UpdateIR, true => TapState.SelectDRScan
  | TapState.UpdateIR, false => TapState.RunTestIdle

/-- The first `n` bits of a TMS scratch in transmission order (bit 0 first). -/
def tms_bits (buf_tms n : Nat) : List Bool :=
  (List.range n).map (fun k => buf_tms.testBit k)

/-- The states entered, in order, when the TAP in state `s` is clocked once
per TMS level in the list. -/
def tap_walk : TapState → List Bool → List TapState
  | _, [] => []
  | s, b :: bs => tap_step s b :: tap_walk (tap_step s b) bs

/-- Number of TCK cycles in a log: the falling edges `IO_CLEAR(TCK)`. -/
def tck_cycles (t : List LineEvent) : Nat :=
  t.count (LineEvent.clear Pin.TCK)

/-! ## Observing a transfer attempt by attempt -/

/-- The loop state with which `vsfhal_jtag_dr` enters its retry loop. -/
def dr_start (env : Env) (p : Port) : DrState :=
  { buf_tdo := u64 env.buf_tdo, port := p, attempts := 0 }

/-- The loop state after `i` engine calls, were the loop to keep going. -/
def dr_state_after (ctl : jtag_control_t) (f : RwDrFn) (env : Env) (sc : DrScan)
    (dr_before : Nat) : Nat → DrState → DrState
  | 0, s => s
  | i + 1, s => dr_state_after ctl f env sc dr_before i (dr_attempt ctl f env sc dr_before s).2

/-- The acknowledge decoded by the `j`-th scan attempt of a transfer
(`j = 1, 2, ...`). -/
def attempt_ack (ctl : jtag_control_t) (f : RwDrFn) (env : Env)
    (request dr dr_before dr_after : Nat) (p : Port) (j : Nat) : Nat :=
  (dr_attempt ctl f env (dr_encode ctl.idle request dr dr_before dr_after) dr_before
    (dr_state_after ctl f env (dr_encode ctl.idle request dr dr_before dr_after) dr_before
      (j - 1) (dr_start env p))).1

/-- The TDO scratch as the `j`-th scan attempt of a transfer leaves it. -/
def attempt_scratch (ctl : jtag_control_t) (f : RwDrFn) (env : Env)
    (request dr dr_before dr_after : Nat) (p : Port) (j : Nat) : Nat :=
  (dr_state_after ctl f env (dr_encode ctl.idle request dr dr_before dr_after) dr_before
    j (dr_start env p)).buf_tdo

/-- Bit `k` of a scratch, as 0 or 1. -/
def bit_at (buf k : Nat) : Nat := (buf >>> k) % 2

/-! ## Flat-shift callers: raw shift and IR scan (jtag.c lines 155-210) -/

/-- A call through a non-null `jtag_control.jtag_rw`. -/
def call_rw (ctl : jtag_control_t) (f : RwFn) (line : Nat → Bool)
    (bitlen : Nat) (tms tdi : Nat → Nat) (junk : Nat) (p : Port) : Engine :=
  match f with
  | RwFn.jtag_rw_quick => jtag_rw_quick line bitlen tms tdi junk p
  | RwFn.jtag_rw_slow => jtag_rw_slow ctl.jtag_delay ctl.delay_tick line bitlen tms tdi junk p

/-- Source function `vsfhal_jtag_raw` (jtag.c lines 155-158): always the
throttled flat shift, on caller buffers. -/
def vsfhal_jtag_raw (ctl : jtag_control_t) (line : Nat → Bool) (bitlen : Nat)
    (tms tdi : Nat → Nat) (junk : Nat) (p : Port) : Engine :=
  jtag_rw_slow ctl.jtag_delay ctl.delay_tick line bitlen tms tdi junk p

/-- Unsigned 64-bit subtraction `a - b`, wrapping below zero. -/
def usub64 (a b : Nat) : Nat := (a + 2 ^ 64 - b % 2 ^ 64) % 2 ^ 64

/-- What `vsfhal_jtag_ir` has built when it calls the flat shift. -/
structure IrScan where
  buf_tms : Nat
  buf_tdi : Nat
  bitlen : Nat
  deriving DecidableEq, Repr

/-- Lines 165-207 of `vsfhal_jtag_ir`, statement by statement. The two
`if (ir_after)` branches yield (buf_tms, buf_tdi, bitlen). The instruction's
top bit is placed by `((ir >> lr_length) & 0x1) << bitlen`, an expression of
type `uint32_t` (no cast to `uint64_t`): a 32-bit shift, whose result is 0 on
this ARM target once `bitlen` reaches 32 (undefined in C). Shifts of a
`uint64_t` by 64 or more are undefined in C; the model yields 0 there. -/
def ir_encode (ir lr_length ir_before ir_after : Nat) : IrScan :=
  let buf_tdi := 0
  let lr_length := usub32 lr_length 1
  -- Select-DR-Scan, Select-IR-Scan, Capture-IR, Shift-IR
  let buf_tms := 0x3
  let bitlen := 4
  -- Bypass before data
  let buf_tdi := if ir_before ≠ 0 then
      buf_tdi ||| u64 (usub64 (u64 (0x1 <<< ir_before)) 1 <<< bitlen) else buf_tdi
  let bitlen := if ir_before ≠ 0 then u32 (bitlen + ir_before) else bitlen
  -- Set IR bitlen
  let buf_tdi := if lr_length ≠ 0 then
      buf_tdi ||| u64 ((ir &&& usub64 (u64 (0x1 <<< lr_length)) 1) <<< bitlen) else buf_tdi
  let bitlen := if lr_length ≠ 0 then u32 (bitlen + lr_length) else bitlen
  -- Bypass after data
  let t : Nat × Nat × Nat :=
    if ir_after ≠ 0 then
      let buf_tdi := buf_tdi ||| u32 (((ir >>> lr_length) &&& 0x1) <<< bitlen)
      let bitlen := u32 (bitlen + 1)
      let ir_after := usub32 ir_after 1
      let buf_tdi := if ir_after ≠ 0 then
          buf_tdi ||| u64 (usub64 (u64 (0x1 <<< ir_after)) 1 <<< bitlen) else buf_tdi
      let bitlen := if ir_after ≠ 0 then u32 (bitlen + ir_after) else bitlen
      let buf_tms := buf_tms ||| u64 (0x1 <<< bitlen)
      let buf_tdi := buf_tdi ||| u64 (0x1 <<< bitlen)
      (buf_tms, buf_tdi, u32 (bitlen + 1))
    else
      let buf_tms := buf_tms ||| u64 (0x1 <<< bitlen)
      let buf_tdi := buf_tdi ||| u32 (((ir >>> lr_length) &&& 0x1) <<< bitlen)
      (buf_tms, buf_tdi, u32 (bitlen + 1))
  -- Exit1-IR, Update-IR
  let buf_tms := t.1 ||| u64 (0x1 <<< t.2.2)
  let bitlen := u32 (t.2.2 + 1)
  -- idle
  let buf_tdi := t.2.1 ||| u64 (0x1 <<< bitlen)
  let bitlen := u32 (bitlen + 1)
  { buf_tms := buf_tms, buf_tdi := buf_tdi, bitlen := bitlen }

/-- Source function `vsfhal_jtag_ir` (jtag.c lines 160-210): the encoding,
then the flat shift through `jtag_control.jtag_rw`; `none` when that pointer
is null. The TDO bytes land in the local scratch and are discarded. -/
def vsfhal_jtag_ir (ctl : jtag_control_t) (line : Nat → Bool) (junk : Nat)
    (ir lr_length ir_before ir_after : Nat) (p : Port) : Option Engine :=
  match ctl.jtag_rw with
  | none => none
  | some f =>
    let sc := ir_encode ir lr_length ir_before ir_after
    some (call_rw ctl f line sc.bitlen (scratch_byte sc.buf_tms) (scratch_byte sc.buf_tdi) junk p)

/-! ## Speed selection (jtag.c lines 123-153) -/

/-- Truncation to `uint16_t`. -/
def u16 (x : Nat) : Nat := x % 2 ^ 16

/-- Source function `vsfhal_jtag_config`. The parameters are `uint16_t kHz`,
`uint16_t retry`, `uint8_t idle`; `ahb_apb_freq_hz` is the bus clock read from
`vsfhal_clk_info_get()`, which is not in the source file. The result is
`none` when the divisor `kHz * 2000` is zero: the division on line 130 is then
undefined and the function is not known to complete. -/
def vsfhal_jtag_config (ahb_apb_freq_hz : Nat) (ctl : jtag_control_t)
    (kHz retry idle : Nat) : Option jtag_control_t :=
  if kHz * 2000 = 0 then none
  else
    let ctl := { ctl with idle := idle, retry_limit := retry,
                          delay_tick := u16 (ahb_apb_freq_hz / (kHz * 2000)) }
    if kHz ≥ 3000 then
      some { ctl with jtag_rw := some RwFn.jtag_rw_quick,
                      jtag_rw_dr := some RwDrFn.jtag_rw_dr_quick,
                      jtag_delay := none }
    else if kHz ≥ 1500 then
      some { ctl with jtag_rw := some RwFn.jtag_rw_slow,
                      jtag_rw_dr := some RwDrFn.jtag_rw_dr_slow,
                      jtag_delay := some DelayFn.delay_jtag_2000khz_1500khz }
    else if kHz ≥ 750 then
      some { ctl with jtag_rw := some RwFn.jtag_rw_slow,
                      jtag_rw_dr := some RwDrFn.jtag_rw_dr_slow,
                      jtag_delay := some DelayFn.delay_jtag_1000khz_750khz }
    else if kHz ≥ 375 then
      some { ctl with jtag_rw := some RwFn.jtag_rw_slow,
                      jtag_rw_dr := some RwDrFn.jtag_rw_dr_slow,
                      jtag_delay := some DelayFn.delay_jtag_500khz_375khz }
    else
      some { ctl with jtag_rw := some RwFn.jtag_rw_slow,
                      jtag_rw_dr := some RwDrFn.jtag_rw_dr_slow,
                      jtag_delay := some DelayFn.delay_jtag_250khz_188khz }

/-- The control block after `vsfhal_jtag_init`: `memset` to zero, every
function pointer null. -/
def ctl_zero : jtag_control_t :=
  { idle := 0, retry_limit := 0, delay_tick := 0,
    jtag_rw := none, jtag_rw_dr := none, jtag_delay := none }

/-! ## Wire-level reference: what a shift of n bits should put on the pins -/

/-- Bit `k` of a byte buffer in wire order: bit `k mod 8` of byte `k / 8`. -/
def buf_bit (buf : Nat → Nat) (k : Nat) : Bool := (u8 (buf (k / 8))).testBit (k % 8)

/-- The events of the delay statement: one call when a routine is configured,
nothing when the pointer is null. -/
def delay_log (jtag_delay : Option DelayFn) (delay_tick : Nat) : List LineEvent :=
  match jtag_delay with
  | none => []
  | some f => [LineEvent.delay f delay_tick]

/-- One TCK cycle as the spec words it: drive TDI and TMS, lower TCK, wait
(`d`), raise TCK, wait (`d`), sample TDO. -/
def cycle_log (d : List LineEvent) (tdi tms level : Bool) : List LineEvent :=
  [if tdi then LineEvent.set Pin.TDI else LineEvent.clear Pin.TDI,
   if tms then LineEvent.set Pin.TMS else LineEvent.clear Pin.TMS,
   LineEvent.clear Pin.TCK] ++ d ++ [LineEvent.set Pin.TCK] ++ d ++ [LineEvent.get level]

/-- The log of cycles 0 .. n-1 of a shift: cycle `k` drives bit `k` of TDI and
of TMS and samples `level k`. -/
def wire_log (d : List LineEvent) (tms tdi level : Nat → Bool) : Nat → List LineEvent
  | 0 => []
  | n + 1 => wire_log d tms tdi level n ++ cycle_log d (tdi n) (tms n) (level n)

/-- Whether an event is a call of a delay routine. -/
def is_delay : LineEvent → Bool
  | LineEvent.delay _ _ => true
  | _ => false

/-- One cycle of either engine variant written as one update of pins and
locals: `d` is the log of the delay statement (empty for the unthrottled
variant). -/
def cycle_ref (d : List LineEvent) (line : Nat → Bool) (p : Port) (r : Regs) : Port × Regs :=
  ({ trace := p.trace ++ cycle_log d (r.tdi_last.testBit 0) (r.tms_last.testBit 0) (line p.reads),
     reads := p.reads + 1 },
   { tms_last := r.tms_last >>> 1, tdi_last := r.tdi_last >>> 1,
     tdo_last := (r.tdo_last >>> 1) ||| (if line p.reads then 0x80 else 0x00) })

/-- The accumulator `tdo_last` after `m` cycles that sampled `level 0`,
`level 1`, ..., starting from the value `acc`. -/
def tdo_acc (level : Nat → Bool) (acc : Nat) : Nat → Nat
  | 0 => acc
  | m + 1 => (tdo_acc level acc m >>> 1) ||| (if level m then 0x80 else 0x00)

/-- What a shift of `n` bits from pins `p` must leave behind: the log grew
by cycles 0 .. n-1, each driving bit k of `tdi` and `tms` and sampling the
k-th next TDO level; `n` TDO reads were made; `ceil(n / 8)` bytes were stored
and no more; bit i of stored byte j is the sample of cycle 8*j + i when that
cycle exists and 0 otherwise; `n / 8` input bytes were stepped over. -/
def shifted (d : List LineEvent) (line : Nat → Bool) (tms tdi : Nat → Nat) (p : Port)
    (n : Nat) (e : Engine) : Prop :=
  e.port.trace = p.trace
      ++ wire_log d (buf_bit tms) (buf_bit tdi) (fun k => line (p.reads + k)) n
    ∧ e.port.reads = p.reads + n
    ∧ e.out.length = (n + 7) / 8
    ∧ (∀ j i, (e.out.getD j 0).testBit i
        = (decide (i < 8 ∧ 8 * j + i < n) && line (p.reads + (8 * j + i))))
    ∧ e.rd = n / 8

/-! ## Loop-back wiring: TDO connected to TDI -/

/-- The level of the TDI pin after a log, given its level before: the last
`IO_SET` or `IO_CLEAR` on TDI decides. -/
def tdi_after : Bool → List LineEvent → Bool
  | pin, [] => pin
  | _, LineEvent.set Pin.TDI :: t => tdi_after true t
  | _, LineEvent.clear Pin.TDI :: t => tdi_after false t
  | pin, _ :: t => tdi_after pin t

/-- Whether a log is one of a probe whose TDO input is wired to its TDI
output: every read of TDO in the log returns the level the TDI pin has at
that moment, `pin` being the level of TDI before the log starts. -/
def tdo_follows_tdi : Bool → List LineEvent → Bool
  | _, [] => true
  | _, LineEvent.set Pin.TDI :: t => tdo_follows_tdi true t
  | _, LineEvent.clear Pin.TDI :: t => tdo_follows_tdi false t
  | pin, LineEvent.get level :: t => (level == pin) && tdo_follows_tdi pin t
  | pin, _ :: t => tdo_follows_tdi pin t

/-! ## Concrete inputs used to exercise the theorems -/

/-- A control block as `vsfhal_jtag_config` leaves it for 4000 kHz, with the
given retry limit and no idle cycles. -/
def quick_ctl (retry : Nat) : jtag_control_t :=
  { idle := 0, retry_limit := retry, delay_tick := 0,
    jtag_rw := some RwFn.jtag_rw_quick, jtag_rw_dr := some RwDrFn.jtag_rw_dr_quick,
    jtag_delay := none }

/-- A control block as `vsfhal_jtag_config` leaves it for 1000 kHz. -/
def slow_ctl (retry idle : Nat) : jtag_control_t :=
  { idle := idle, retry_limit := retry, delay_tick := 24,
    jtag_rw := some RwFn.jtag_rw_slow, jtag_rw_dr := some RwDrFn.jtag_rw_dr_slow,
    jtag_delay := some DelayFn.delay_jtag_1000khz_750khz }

/-- Pins with an empty log. -/
def port0 : Port := { trace := [], reads := 0 }

/-- A target whose TDO is high exactly on the listed reads. -/
def env_high_on (reads : List Nat) : Env :=
  { line := fun n => decide (n ∈ reads), junk := fun _ => 0, buf_tdo := 0 }

/-- A target whose TDO stays low, seen from a stack whose uninitialised
`buf_tdo` holds `garbage`. -/
def env_low (garbage : Nat) : Env :=
  { line := fun _ => false, junk := fun _ => 0, buf_tdo := garbage }

/-- A two-byte TDI buffer, A5 03, as a byte-indexed memory. -/
def loop_tdi : Nat → Nat := fun i => [0xA5, 0x03].getD i 0

/-- The TDO levels a probe with TDO wired to TDI sees when it shifts
`loop_tdi` starting at read 0: read k returns TDI bit k. -/
def loop_line : Nat → Bool := fun k => buf_bit loop_tdi k

end Jtag


/-! # Theorems -/

namespace Jtag

/-! ## Retry loop -/

/-- Each engine call adds one to the call counter. -/
theorem dr_state_after_attempts (ctl : jtag_control_t) (f : RwDrFn) (env : Env) (sc : DrScan)
    (dr_before : Nat) (i : Nat) (s : DrState) :
    (dr_state_after ctl f env sc dr_before i s).attempts = s.attempts + i := by
  induction i generalizing s with
  | zero => rfl
  | succ i ih =>
    simp only [dr_state_after]
    rw [ih]
    simp only [dr_attempt]
    omega

/-- Running `i + 1` attempts is running `i` attempts and then one more. -/
theorem dr_state_after_succ (ctl : jtag_control_t) (f : RwDrFn) (env : Env) (sc : DrScan)
    (dr_before : Nat) (i : Nat) (s : DrState) :
    dr_state_after ctl f env sc dr_before (i + 1) s
      = (dr_attempt ctl f env sc dr_before (dr_state_after ctl f env sc dr_before i s)).2 := by
  induction i generalizing s with
  | zero => rfl
  | succ i ih =>
    rw [dr_state_after, ih]
    rfl

/-- The retry loop stops at the first attempt `k` (counted from 0) whose
acknowledge is not WAIT, provided `k` retries are allowed. -/
theorem dr_retry_stops (ctl : jtag_control_t) (f : RwDrFn) (env : Env) (sc : DrScan)
    (dr_before : Nat) (left k : Nat) (s : DrState) (hk : k ≤ left)
    (hwait : ∀ i, i < k →
      (dr_attempt ctl f env sc dr_before (dr_state_after ctl f env sc dr_before i s)).1
        = DAP_TRANSFER_WAIT)
    (hstop : (dr_attempt ctl f env sc dr_before (dr_state_after ctl f env sc dr_before k s)).1
        ≠ DAP_TRANSFER_WAIT) :
    dr_retry ctl f env sc dr_before left s
      = dr_attempt ctl f env sc dr_before (dr_state_after ctl f env sc dr_before k s) := by
  induction left generalizing k s with
  | zero =>
    have hk0 : k = 0 := by omega
    subst hk0
    rfl
  | succ left ih =>
    cases k with
    | zero =>
      have h0 : (dr_attempt ctl f env sc dr_before s).1 ≠ DAP_TRANSFER_WAIT := hstop
      simp only [dr_retry, dr_state_after]
      rw [if_pos h0]
    | succ k =>
      have h0 : (dr_attempt ctl f env sc dr_before s).1 = DAP_TRANSFER_WAIT :=
        hwait 0 (Nat.succ_pos k)
      simp only [dr_retry]
      rw [if_neg (by simpa using h0)]
      rw [ih k (dr_attempt ctl f env sc dr_before s).2 (by omega)]
      · rfl
      · intro i hi
        exact hwait (i + 1) (by omega)
      · exact hstop

/-- The retry loop runs out after `left + 1` attempts when every one of them
decodes WAIT. -/
theorem dr_retry_exhausts (ctl : jtag_control_t) (f : RwDrFn) (env : Env) (sc : DrScan)
    (dr_before : Nat) (left : Nat) (s : DrState)
    (hwait : ∀ i, i ≤ left →
      (dr_attempt ctl f env sc dr_before (dr_state_after ctl f env sc dr_before i s)).1
        = DAP_TRANSFER_WAIT) :
    dr_retry ctl f env sc dr_before left s
      = dr_attempt ctl f env sc dr_before (dr_state_after ctl f env sc dr_before left s) := by
  induction left generalizing s with
  | zero => rfl
  | succ left ih =>
    have h0 : (dr_attempt ctl f env sc dr_before s).1 = DAP_TRANSFER_WAIT :=
      hwait 0 (Nat.zero_le _)
    simp only [dr_retry]
    rw [if_neg (by simpa using h0)]
    rw [ih (dr_attempt ctl f env sc dr_before s).2]
    · rfl
    · intro i hi
      exact hwait (i + 1) (by omega)

/-- The retry loop always ends on some attempt `k` within the retry limit:
the state it returns is the one that attempt produced. -/
theorem dr_retry_last (ctl : jtag_control_t) (f : RwDrFn) (env : Env) (sc : DrScan)
    (dr_before : Nat) (left : Nat) (s : DrState) :
    ∃ k, k ≤ left ∧ dr_retry ctl f env sc dr_before left s
      = dr_attempt ctl f env sc dr_before (dr_state_after ctl f env sc dr_before k s) := by
  induction left generalizing s with
  | zero => exact ⟨0, Nat.le_refl 0, rfl⟩
  | succ left ih =>
    by_cases h0 : (dr_attempt ctl f env sc dr_before s).1 ≠ DAP_TRANSFER_WAIT
    · refine ⟨0, Nat.zero_le _, ?_⟩
      simp only [dr_retry, dr_state_after]
      rw [if_pos h0]
    · obtain ⟨k, hk, hEq⟩ := ih (dr_attempt ctl f env sc dr_before s).2
      refine ⟨k + 1, by omega, ?_⟩
      simp only [dr_retry]
      rw [if_neg h0, hEq]
      rfl

/-- C1 (retry bound). With a non-null split-shift pointer, if every scan
attempt 1 .. retry_limit + 1 decodes WAIT, `vsfhal_jtag_dr` returns, having
called the split-shift engine exactly retry_limit + 1 times, and its return
value is WAIT. -/
theorem retry_bound_all_wait (ctl : jtag_control_t) (f : RwDrFn) (env : Env)
    (request dr dr_before dr_after : Nat) (data : Option (List Nat)) (p : Port)
    (hf : ctl.jtag_rw_dr = some f)
    (hwait : ∀ j, 1 ≤ j → j ≤ ctl.retry_limit + 1 →
      attempt_ack ctl f env request dr dr_before dr_after p j = DAP_TRANSFER_WAIT) :
    ∃ res, vsfhal_jtag_dr ctl env request dr dr_before dr_after data p = some res
      ∧ res.attempts = ctl.retry_limit + 1 ∧ res.ack = DAP_TRANSFER_WAIT := by
  have hloop := dr_retry_exhausts ctl f env (dr_encode ctl.idle request dr dr_before dr_after)
    dr_before ctl.retry_limit (dr_start env p)
    (fun i hi => by simpa [attempt_ack] using hwait (i + 1) (by omega) (by omega))
  have hlast := hwait (ctl.retry_limit + 1) (by omega) (Nat.le_refl _)
  simp only [attempt_ack, Nat.add_sub_cancel] at hlast
  refine ⟨_, by simp only [vsfhal_jtag_dr, hf]; rfl, ?_, ?_⟩
  · show (dr_retry ctl f env _ dr_before ctl.retry_limit _).2.attempts = _
    rw [show ({ buf_tdo := u64 env.buf_tdo, port := p, attempts := 0 } : DrState)
      = dr_start env p from rfl, hloop, ← dr_state_after_succ, dr_state_after_attempts]
    simp [dr_start]
  · show (dr_retry ctl f env _ dr_before ctl.retry_limit _).1 = _
    rw [show ({ buf_tdo := u64 env.buf_tdo, port := p, attempts := 0 } : DrState)
      = dr_start env p from rfl, hloop]
    exact hlast

/-- Witness for C1: retry limit 2 and a target that answers WAIT on each of
the three attempts (TDO high on the fourth read of every 16-cycle scan). -/
theorem retry_bound_all_wait_witness :
    ∃ res, vsfhal_jtag_dr (quick_ctl 2) (env_high_on [3, 19, 35]) 0 0 0 0 none port0 = some res
      ∧ res.attempts = 2 + 1 ∧ res.ack = DAP_TRANSFER_WAIT :=
  retry_bound_all_wait (quick_ctl 2) RwDrFn.jtag_rw_dr_quick (env_high_on [3, 19, 35])
    0 0 0 0 none port0 rfl
    (by
      intro j h1 h2
      have h3 : j ≤ 3 := h2
      interval_cases j <;> decide)

/-- C2 (early exit). With a non-null split-shift pointer, if attempts
1 .. k-1 decode WAIT and attempt k (1 ≤ k ≤ retry_limit + 1) decodes some
other code, `vsfhal_jtag_dr` calls the engine exactly k times and returns
that code unchanged. -/
theorem early_exit_on_non_wait (ctl : jtag_control_t) (f : RwDrFn) (env : Env)
    (request dr dr_before dr_after : Nat) (data : Option (List Nat)) (p : Port) (k : Nat)
    (hf : ctl.jtag_rw_dr = some f) (hk1 : 1 ≤ k) (hk : k ≤ ctl.retry_limit + 1)
    (hwait : ∀ j, 1 ≤ j → j < k →
      attempt_ack ctl f env request dr dr_before dr_after p j = DAP_TRANSFER_WAIT)
    (hstop : attempt_ack ctl f env request dr dr_before dr_after p k ≠ DAP_TRANSFER_WAIT) :
    ∃ res, vsfhal_jtag_dr ctl env request dr dr_before dr_after data p = some res
      ∧ res.attempts = k
      ∧ res.ack = attempt_ack ctl f env request dr dr_before dr_after p k := by
  have hloop := dr_retry_stops ctl f env (dr_encode ctl.idle request dr dr_before dr_after)
    dr_before ctl.retry_limit (k - 1) (dr_start env p) (by omega)
    (fun i hi => by simpa [attempt_ack] using hwait (i + 1) (by omega) (by omega))
    (by simpa [attempt_ack] using hstop)
  refine ⟨_, by simp only [vsfhal_jtag_dr, hf]; rfl, ?_, ?_⟩
  · show (dr_retry ctl f env _ dr_before ctl.retry_limit _).2.attempts = _
    rw [show ({ buf_tdo := u64 env.buf_tdo, port := p, attempts := 0 } : DrState)
      = dr_start env p from rfl, hloop, ← dr_state_after_succ, dr_state_after_attempts]
    simp only [dr_start]
    omega
  · show (dr_retry ctl f env _ dr_before ctl.retry_limit _).1 = _
    rw [show ({ buf_tdo := u64 env.buf_tdo, port := p, attempts := 0 } : DrState)
      = dr_start env p from rfl, hloop]
    rfl

/-- Witness for C2: retry limit 5, WAIT on the first attempt and OK on the
second (k = 2). -/
theorem early_exit_on_non_wait_witness :
    ∃ res, vsfhal_jtag_dr (quick_ctl 5) (env_high_on [3, 20]) 0 0 0 0 none port0 = some res
      ∧ res.attempts = 2
      ∧ res.ack = attempt_ack (quick_ctl 5) RwDrFn.jtag_rw_dr_quick (env_high_on [3, 20])
          0 0 0 0 port0 2 :=
  early_exit_on_non_wait (quick_ctl 5) RwDrFn.jtag_rw_dr_quick (env_high_on [3, 20])
    0 0 0 0 none port0 2 rfl (by decide) (by decide)
    (by
      intro j h1 h2
      have h3 : j = 1 := by omega
      subst h3
      decide)
    (by decide)

end Jtag

namespace Jtag

/-! ## Acknowledge decode and read-data extraction -/

/-- The bit shuffle of line 260 on a 3-bit value, in arithmetic form. -/
theorem reorder_three_bits : ∀ y, y < 8 →
    (y &&& 0x4) ||| ((y &&& 0x2) >>> 1) ||| ((y &&& 0x1) <<< 1)
      = 4 * (y / 4 % 2) + 2 * (y % 2) + y / 2 % 2 := by
  decide

/-- The decoded acknowledge in terms of the three scratch bits at the shift
amount `u32 (dr_before + 3)` actually used by the code. -/
theorem decode_ack_bits (buf dr_before : Nat) :
    decode_ack buf dr_before
      = 4 * bit_at buf (u32 (dr_before + 3) + 2) + 2 * bit_at buf (u32 (dr_before + 3))
        + bit_at buf (u32 (dr_before + 3) + 1) := by
  unfold decode_ack ack_reorder bit_at
  simp only [Nat.shiftRight_add]
  generalize buf >>> u32 (dr_before + 3) = z
  have h7 : z &&& 0x7 = z % 8 := Nat.and_pow_two_sub_one_eq_mod z 3
  simp only [h7]
  rw [reorder_three_bits (z % 8) (Nat.mod_lt _ (by decide))]
  simp only [Nat.shiftRight_eq_div_pow]
  omega

/-- The decoded acknowledge is a 3-bit value. -/
theorem decode_ack_le (buf dr_before : Nat) : decode_ack buf dr_before ≤ 7 := by
  rw [decode_ack_bits]
  unfold bit_at
  omega

/-- What `vsfhal_jtag_dr` returns is what its last scan attempt produced: the
number of attempts is between 1 and retry_limit + 1, the return value is the
acknowledge that attempt decoded, the scratch is as that attempt left it, and
the caller memory is rewritten from that scratch exactly when a buffer was
supplied. -/
theorem vsfhal_jtag_dr_last (ctl : jtag_control_t) (f : RwDrFn) (env : Env)
    (request dr dr_before dr_after : Nat) (data : Option (List Nat)) (p : Port)
    (hf : ctl.jtag_rw_dr = some f) :
    ∃ res, vsfhal_jtag_dr ctl env request dr dr_before dr_after data p = some res
      ∧ 1 ≤ res.attempts ∧ res.attempts ≤ ctl.retry_limit + 1
      ∧ res.ack = attempt_ack ctl f env request dr dr_before dr_after p res.attempts
      ∧ res.buf_tdo = attempt_scratch ctl f env request dr dr_before dr_after p res.attempts
      ∧ res.data = data.map (put_unaligned_le32 (res.buf_tdo >>> u32 (dr_before + 6))) := by
  obtain ⟨k, hk, hEq⟩ := dr_retry_last ctl f env
    (dr_encode ctl.idle request dr dr_before dr_after) dr_before ctl.retry_limit (dr_start env p)
  have hatt1 : (dr_retry ctl f env (dr_encode ctl.idle request dr dr_before dr_after) dr_before
      ctl.retry_limit (dr_start env p)).2.attempts = k + 1 := by
    rw [hEq, ← dr_state_after_succ, dr_state_after_attempts]
    simp [dr_start]
  have hack : (dr_retry ctl f env (dr_encode ctl.idle request dr dr_before dr_after) dr_before
      ctl.retry_limit (dr_start env p)).1
        = attempt_ack ctl f env request dr dr_before dr_after p (k + 1) := by
    rw [hEq]
    simp only [attempt_ack, Nat.add_sub_cancel]
  have hbuf : (dr_retry ctl f env (dr_encode ctl.idle request dr dr_before dr_after) dr_before
      ctl.retry_limit (dr_start env p)).2.buf_tdo
        = attempt_scratch ctl f env request dr dr_before dr_after p (k + 1) := by
    rw [hEq]
    simp only [attempt_scratch, dr_state_after_succ]
  refine ⟨_, by simp only [vsfhal_jtag_dr, hf]; rfl, ?_, ?_, ?_, ?_, ?_⟩
  · show 1 ≤ (dr_retry ctl f env _ dr_before ctl.retry_limit (dr_start env p)).2.attempts
    rw [hatt1]
    omega
  · show (dr_retry ctl f env _ dr_before ctl.retry_limit (dr_start env p)).2.attempts ≤ _
    rw [hatt1]
    omega
  · show (dr_retry ctl f env _ dr_before ctl.retry_limit (dr_start env p)).1
      = attempt_ack ctl f env request dr dr_before dr_after p
          (dr_retry ctl f env _ dr_before ctl.retry_limit (dr_start env p)).2.attempts
    rw [hatt1, hack]
  · show (dr_retry ctl f env _ dr_before ctl.retry_limit (dr_start env p)).2.buf_tdo
      = attempt_scratch ctl f env request dr dr_before dr_after p
          (dr_retry ctl f env _ dr_before ctl.retry_limit (dr_start env p)).2.attempts
    rw [hatt1, hbuf]
  · cases data <;> rfl

/-- The acknowledge decoded by attempt `j` is the decode of the scratch that
attempt left. -/
theorem attempt_ack_eq_decode (ctl : jtag_control_t) (f : RwDrFn) (env : Env)
    (request dr dr_before dr_after : Nat) (p : Port) (j : Nat) (hj : 1 ≤ j) :
    attempt_ack ctl f env request dr dr_before dr_after p j
      = decode_ack (attempt_scratch ctl f env request dr dr_before dr_after p j) dr_before := by
  obtain ⟨i, rfl⟩ : ∃ i, j = i + 1 := ⟨j - 1, by omega⟩
  simp only [attempt_ack, attempt_scratch, Nat.add_sub_cancel, dr_state_after_succ]
  rfl

/-- C3 (acknowledge decode). When `dr_before + 3` does not wrap in 32 bits:
after every scan attempt j the decoded acknowledge is 4*t2 + 2*t0 + t1, with
t0, t1, t2 the TDO-scratch bits at offsets dr_before+3, +4, +5 as that attempt
left them; and `vsfhal_jtag_dr` returns the code decoded by its last attempt,
computed from the scratch that attempt left, a value in 0..7. -/
theorem ack_decode_reorders (ctl : jtag_control_t) (f : RwDrFn) (env : Env)
    (request dr dr_before dr_after : Nat) (data : Option (List Nat)) (p : Port)
    (hf : ctl.jtag_rw_dr = some f) (hb : dr_before + 3 < 2 ^ 32) :
    (∀ j, 1 ≤ j →
      attempt_ack ctl f env request dr dr_before dr_after p j
        = 4 * bit_at (attempt_scratch ctl f env request dr dr_before dr_after p j) (dr_before + 5)
          + 2 * bit_at (attempt_scratch ctl f env request dr dr_before dr_after p j) (dr_before + 3)
          + bit_at (attempt_scratch ctl f env request dr dr_before dr_after p j) (dr_before + 4))
    ∧ ∃ res, vsfhal_jtag_dr ctl env request dr dr_before dr_after data p = some res
      ∧ 1 ≤ res.attempts
      ∧ res.ack = attempt_ack ctl f env request dr dr_before dr_after p res.attempts
      ∧ res.buf_tdo = attempt_scratch ctl f env request dr dr_before dr_after p res.attempts
      ∧ res.ack = 4 * bit_at res.buf_tdo (dr_before + 5) + 2 * bit_at res.buf_tdo (dr_before + 3)
          + bit_at res.buf_tdo (dr_before + 4)
      ∧ res.ack ≤ 7 := by
  have hu : u32 (dr_before + 3) = dr_before + 3 := Nat.mod_eq_of_lt hb
  have hdec : ∀ buf, decode_ack buf dr_before
      = 4 * bit_at buf (dr_before + 5) + 2 * bit_at buf (dr_before + 3)
        + bit_at buf (dr_before + 4) := by
    intro buf
    rw [decode_ack_bits, hu]
  obtain ⟨res, hres, h1, _, hack, hbuf, _⟩ :=
    vsfhal_jtag_dr_last ctl f env request dr dr_before dr_after data p hf
  have hdecode : res.ack = decode_ack res.buf_tdo dr_before := by
    rw [hack, hbuf]
    exact attempt_ack_eq_decode ctl f env request dr dr_before dr_after p res.attempts h1
  refine ⟨fun j hj => by rw [attempt_ack_eq_decode _ _ _ _ _ _ _ _ j hj, hdec],
    res, hres, h1, hack, hbuf, ?_, ?_⟩
  · rw [hdecode, hdec]
  · rw [hdecode]
    exact decode_ack_le _ _

/-- Witness for C3: a target answering WAIT three times, dr_before = 0. -/
theorem ack_decode_reorders_witness :
    (∀ j, 1 ≤ j →
      attempt_ack (quick_ctl 2) RwDrFn.jtag_rw_dr_quick (env_high_on [3, 19, 35]) 0 0 0 0 port0 j
        = 4 * bit_at (attempt_scratch (quick_ctl 2) RwDrFn.jtag_rw_dr_quick
              (env_high_on [3, 19, 35]) 0 0 0 0 port0 j) (0 + 5)
          + 2 * bit_at (attempt_scratch (quick_ctl 2) RwDrFn.jtag_rw_dr_quick
              (env_high_on [3, 19, 35]) 0 0 0 0 port0 j) (0 + 3)
          + bit_at (attempt_scratch (quick_ctl 2) RwDrFn.jtag_rw_dr_quick
              (env_high_on [3, 19, 35]) 0 0 0 0 port0 j) (0 + 4))
    ∧ ∃ res, vsfhal_jtag_dr (quick_ctl 2) (env_high_on [3, 19, 35]) 0 0 0 0 none port0 = some res
      ∧ 1 ≤ res.attempts
      ∧ res.ack = attempt_ack (quick_ctl 2) RwDrFn.jtag_rw_dr_quick (env_high_on [3, 19, 35])
          0 0 0 0 port0 res.attempts
      ∧ res.buf_tdo = attempt_scratch (quick_ctl 2) RwDrFn.jtag_rw_dr_quick
          (env_high_on [3, 19, 35]) 0 0 0 0 port0 res.attempts
      ∧ res.ack = 4 * bit_at res.buf_tdo (0 + 5) + 2 * bit_at res.buf_tdo (0 + 3)
          + bit_at res.buf_tdo (0 + 4)
      ∧ res.ack ≤ 7 :=
  ack_decode_reorders (quick_ctl 2) RwDrFn.jtag_rw_dr_quick (env_high_on [3, 19, 35])
    0 0 0 0 none port0 rfl (by decide)

/-- The four bytes stored by `put_unaligned_le32` for a value taken from a
scratch at a bit offset. -/
theorem put_unaligned_le32_shift (buf s : Nat) (mem : List Nat) :
    put_unaligned_le32 (buf >>> s) mem
      = [(buf >>> (s + 8 * 0)) &&& 0xFF, (buf >>> (s + 8 * 1)) &&& 0xFF,
         (buf >>> (s + 8 * 2)) &&& 0xFF, (buf >>> (s + 8 * 3)) &&& 0xFF] ++ mem.drop 4 := by
  have hff : ∀ z : Nat, z &&& 0xFF = z % 256 := fun z => Nat.and_pow_two_sub_one_eq_mod z 8
  unfold put_unaligned_le32 u32
  rw [Nat.shiftRight_add buf s (8 * 0), Nat.shiftRight_add buf s (8 * 1),
    Nat.shiftRight_add buf s (8 * 2), Nat.shiftRight_add buf s (8 * 3)]
  generalize buf >>> s = z
  simp only [hff, Nat.shiftRight_eq_div_pow]
  have h0 : z % 2 ^ 32 % 256 = z / 2 ^ (8 * 0) % 256 := by omega
  have h1 : z % 2 ^ 32 / 2 ^ 8 % 256 = z / 2 ^ (8 * 1) % 256 := by omega
  have h2 : z % 2 ^ 32 / 2 ^ 16 % 256 = z / 2 ^ (8 * 2) % 256 := by omega
  have h3 : z % 2 ^ 32 / 2 ^ 24 % 256 = z / 2 ^ (8 * 3) % 256 := by omega
  rw [h0, h1, h2, h3]

/-- C4 (read-data extraction). With a non-null output buffer and a read
request (and `dr_before + 6` not wrapping in 32 bits), `vsfhal_jtag_dr`
leaves in the buffer exactly four new bytes,
out[i] = (tdo_scratch >> (dr_before + 6 + 8*i)) & 0xFF for i = 0..3, taken
from the scratch as the last attempt left it, the rest of the caller memory
unchanged, whatever acknowledge that attempt produced. -/
theorem read_data_extraction (ctl : jtag_control_t) (f : RwDrFn) (env : Env)
    (request dr dr_before dr_after : Nat) (mem : List Nat) (p : Port)
    (hf : ctl.jtag_rw_dr = some f) (_hread : request &&& DAP_TRANSFER_RnW ≠ 0)
    (hb : dr_before + 6 < 2 ^ 32) :
    ∃ res, vsfhal_jtag_dr ctl env request dr dr_before dr_after (some mem) p = some res
      ∧ res.buf_tdo = attempt_scratch ctl f env request dr dr_before dr_after p res.attempts
      ∧ res.data = some
          ([(res.buf_tdo >>> (dr_before + 6 + 8 * 0)) &&& 0xFF,
            (res.buf_tdo >>> (dr_before + 6 + 8 * 1)) &&& 0xFF,
            (res.buf_tdo >>> (dr_before + 6 + 8 * 2)) &&& 0xFF,
            (res.buf_tdo >>> (dr_before + 6 + 8 * 3)) &&& 0xFF] ++ mem.drop 4) := by
  have hu : u32 (dr_before + 6) = dr_before + 6 := Nat.mod_eq_of_lt hb
  obtain ⟨res, hres, _, _, _, hbuf, hdata⟩ :=
    vsfhal_jtag_dr_last ctl f env request dr dr_before dr_after (some mem) p hf
  refine ⟨res, hres, hbuf, ?_⟩
  rw [hdata, hu, Option.map_some', put_unaligned_le32_shift]

/-- Witness for C4: a read request (request = 2) with a 6-byte caller memory;
TDO is high on reads 8 and 9, which the engine stores into scratch bits 8, 9. -/
theorem read_data_extraction_witness :
    ∃ res, vsfhal_jtag_dr (quick_ctl 0) (env_high_on [8, 9]) 2 0 0 0
        (some [1, 2, 3, 4, 5, 6]) port0 = some res
      ∧ res.buf_tdo = attempt_scratch (quick_ctl 0) RwDrFn.jtag_rw_dr_quick (env_high_on [8, 9])
          2 0 0 0 port0 res.attempts
      ∧ res.data = some
          ([(res.buf_tdo >>> (0 + 6 + 8 * 0)) &&& 0xFF,
            (res.buf_tdo >>> (0 + 6 + 8 * 1)) &&& 0xFF,
            (res.buf_tdo >>> (0 + 6 + 8 * 2)) &&& 0xFF,
            (res.buf_tdo >>> (0 + 6 + 8 * 3)) &&& 0xFF] ++ [1, 2, 3, 4, 5, 6].drop 4) :=
  read_data_extraction (quick_ctl 0) RwDrFn.jtag_rw_dr_quick (env_high_on [8, 9])
    2 0 0 0 [1, 2, 3, 4, 5, 6] port0 rfl (by decide) (by decide)

/-- C5 counterexample: a write request (RnW clear) with a supplied buffer
holding AA BB CC DD; the call overwrites it with 00 00 00 00. -/
theorem output_frame_counterexample :
    0 &&& DAP_TRANSFER_RnW = 0
      ∧ ∃ res, vsfhal_jtag_dr (quick_ctl 0) (env_high_on []) 0 0 0 0
          (some [0xAA, 0xBB, 0xCC, 0xDD]) port0 = some res
        ∧ res.data = some [0, 0, 0, 0]
        ∧ res.data ≠ some [0xAA, 0xBB, 0xCC, 0xDD] := by
  refine ⟨by decide, _, rfl, ?_, ?_⟩ <;> decide

/-- C5 amended (output-buffer frame). `vsfhal_jtag_dr` writes to the caller
memory if and only if a buffer was supplied, whatever the direction bit of the
request: with a null pointer nothing is written, and with a buffer the four
bytes of `buf_tdo >> (dr_before + 6)` are stored little-endian, for read and
write requests alike. -/
theorem output_frame_by_pointer_only (ctl : jtag_control_t) (f : RwDrFn) (env : Env)
    (request dr dr_before dr_after : Nat) (data : Option (List Nat)) (p : Port)
    (hf : ctl.jtag_rw_dr = some f) :
    ∃ res, vsfhal_jtag_dr ctl env request dr dr_before dr_after data p = some res
      ∧ (data = none → res.data = none)
      ∧ (∀ mem, data = some mem →
          res.data = some (put_unaligned_le32 (res.buf_tdo >>> u32 (dr_before + 6)) mem)) := by
  obtain ⟨res, hres, _, _, _, _, hdata⟩ :=
    vsfhal_jtag_dr_last ctl f env request dr dr_before dr_after data p hf
  refine ⟨res, hres, ?_, ?_⟩
  · intro h
    rw [hdata, h]
    rfl
  · intro mem h
    rw [hdata, h]
    rfl

/-- Witness for C5 amended: a write request with a supplied buffer. -/
theorem output_frame_by_pointer_only_witness :
    ∃ res, vsfhal_jtag_dr (quick_ctl 0) (env_high_on []) 0 0 0 0
        (some [0xAA, 0xBB, 0xCC, 0xDD]) port0 = some res
      ∧ ((some [0xAA, 0xBB, 0xCC, 0xDD] : Option (List Nat)) = none → res.data = none)
      ∧ (∀ mem, (some [0xAA, 0xBB, 0xCC, 0xDD] : Option (List Nat)) = some mem →
          res.data = some (put_unaligned_le32 (res.buf_tdo >>> u32 (0 + 6)) mem)) :=
  output_frame_by_pointer_only (quick_ctl 0) RwDrFn.jtag_rw_dr_quick (env_high_on [])
    0 0 0 0 (some [0xAA, 0xBB, 0xCC, 0xDD]) port0 rfl

end Jtag

namespace Jtag

/-! ## DR scan encoding -/

/-- Bit length of the encoded scan when the 32-bit counter does not wrap. -/
theorem dr_encode_bitlen (idle request dr dr_before dr_after : Nat)
    (h : 40 + dr_before + dr_after + idle < 2 ^ 32) :
    (dr_encode idle request dr dr_before dr_after).bitlen = 40 + dr_before + dr_after + idle := by
  simp only [dr_encode, u32]
  omega

/-- Closed form of everything `vsfhal_jtag_dr` builds before its loop, for a
scan that fits the 64-bit scratch: no 32-bit operation wraps. -/
theorem dr_encode_fit (idle request dr dr_before dr_after : Nat)
    (h : 40 + dr_before + dr_after + idle ≤ 64) :
    dr_encode idle request dr dr_before dr_after
      = { buf_tms := 0x1 ||| u64 (0x1 <<< (37 + dr_before + dr_after))
            ||| u64 (0x1 <<< (38 + dr_before + dr_after)),
          buf_tdi := (if request &&& DAP_TRANSFER_RnW = 0
              then 0 ||| u64 (((request >>> 1) &&& 0x7) <<< (3 + dr_before))
                ||| u64 (dr <<< (6 + dr_before))
              else 0 ||| u64 (((request >>> 1) &&& 0x7) <<< (3 + dr_before)))
            ||| u64 (0x1 <<< (39 + dr_before + dr_after + idle)),
          bitlen := 40 + dr_before + dr_after + idle,
          dma_bytes := (29 + dr_before + dr_after) >>> 3,
          bits_tail := 32 + dr_before + dr_after + idle - 8 * ((29 + dr_before + dr_after) / 8) } := by
  have e1 : u32 (3 + dr_before) = 3 + dr_before := Nat.mod_eq_of_lt (by omega)
  have e2 : u32 (3 + dr_before + 3) = 6 + dr_before := by unfold u32; omega
  have e3 : u32 (31 + dr_after) = 31 + dr_after := Nat.mod_eq_of_lt (by omega)
  have e4 : u32 (6 + dr_before + (31 + dr_after)) = 37 + dr_before + dr_after := by
    unfold u32; omega
  have e5 : u32 (37 + dr_before + dr_after + 1) = 38 + dr_before + dr_after := by
    unfold u32; omega
  have e6 : u32 (38 + dr_before + dr_after + (1 + idle)) = 39 + dr_before + dr_after + idle := by
    unfold u32; omega
  have e7 : u32 (39 + dr_before + dr_after + idle + 1) = 40 + dr_before + dr_after + idle := by
    unfold u32; omega
  have e8 : usub32 (37 + dr_before + dr_after) 8 = 29 + dr_before + dr_after := by
    unfold usub32; omega
  have e9 : usub32 (40 + dr_before + dr_after + idle) 8 = 32 + dr_before + dr_after + idle := by
    unfold usub32; omega
  have e10 : u32 (((29 + dr_before + dr_after) >>> 3) <<< 3)
      = 8 * ((29 + dr_before + dr_after) / 8) := by
    unfold u32
    rw [Nat.shiftRight_eq_div_pow, Nat.shiftLeft_eq]
    omega
  have e11 : usub32 (32 + dr_before + dr_after + idle) (8 * ((29 + dr_before + dr_after) / 8))
      = 32 + dr_before + dr_after + idle - 8 * ((29 + dr_before + dr_after) / 8) := by
    unfold usub32; omega
  simp only [dr_encode, e1, e2, e3, e4, e5, e6, e7, e8, e9, e10, e11]


/-- The 3-bit header has no bit above bit 2. -/
theorem testBit_hdr (request j : Nat) (hj : 3 ≤ j) : ((request >>> 1) &&& 0x7).testBit j = false := by
  have h7 : (0x7 : Nat) = 2 ^ 3 - 1 := by decide
  rw [Nat.testBit_and, h7, Nat.testBit_two_pow_sub_one]
  simp
  omega

/-- A 32-bit data word has no bit above bit 31. -/
theorem testBit_dr (dr j : Nat) (hdr : dr < 2 ^ 32) (hj : 32 ≤ j) : dr.testBit j = false :=
  Nat.testBit_lt_two_pow (Nat.lt_of_lt_of_le hdr (Nat.pow_le_pow_right (by decide) hj))

/-- Bits of `(uint64_t)0x1 << n`. -/
theorem testBit_one_shl (n k : Nat) : (u64 (0x1 <<< n)).testBit k = decide (k < 64 ∧ k = n) := by
  unfold u64
  rw [Nat.testBit_mod_two_pow, Nat.one_shiftLeft, Nat.testBit_two_pow]
  by_cases h1 : k < 64 <;> by_cases h2 : n = k <;> simp [h1, h2, eq_comm]

/-- C8 (DR TDI encoding). For a scan that fits 64 bits and a 32-bit data word,
bit k of the TDI scratch built by `vsfhal_jtag_dr` is: bit k - (3 + dr_before)
of the header (request >> 1) & 7 for k in the 3 bits from offset
3 + dr_before; for k in the 32 bits from offset 6 + dr_before, bit
k - (6 + dr_before) of dr when the request is a write (RnW clear) and 0 when
it is a read; 1 on the last bit of the scan; and 0 everywhere else. -/
theorem dr_tdi_encoding (idle request dr dr_before dr_after k : Nat)
    (hfit : 40 + dr_before + dr_after + idle ≤ 64) (hdr : dr < 2 ^ 32) :
    (dr_encode idle request dr dr_before dr_after).buf_tdi.testBit k
      = if 3 + dr_before ≤ k ∧ k < 6 + dr_before then
          ((request >>> 1) &&& 0x7).testBit (k - (3 + dr_before))
        else if 6 + dr_before ≤ k ∧ k < 38 + dr_before then
          (decide (request &&& DAP_TRANSFER_RnW = 0) && dr.testBit (k - (6 + dr_before)))
        else decide (k + 1 = (dr_encode idle request dr dr_before dr_after).bitlen) := by
  rw [dr_encode_fit idle request dr dr_before dr_after hfit]
  simp only []
  have hH : (u64 (((request >>> 1) &&& 0x7) <<< (3 + dr_before))).testBit k
      = (decide (3 + dr_before ≤ k ∧ k < 6 + dr_before)
          && ((request >>> 1) &&& 0x7).testBit (k - (3 + dr_before))) := by
    unfold u64
    rw [Nat.testBit_mod_two_pow, Nat.testBit_shiftLeft]
    by_cases h1 : 3 + dr_before ≤ k
    · by_cases h2 : k < 6 + dr_before
      · have : k < 64 := by omega
        simp [h1, h2, this]
      · rw [testBit_hdr request (k - (3 + dr_before)) (by omega)]
        simp
    · simp [h1]
  have hD : (u64 (dr <<< (6 + dr_before))).testBit k
      = (decide (6 + dr_before ≤ k ∧ k < 38 + dr_before) && dr.testBit (k - (6 + dr_before))) := by
    unfold u64
    rw [Nat.testBit_mod_two_pow, Nat.testBit_shiftLeft]
    by_cases h1 : 6 + dr_before ≤ k
    · by_cases h2 : k < 38 + dr_before
      · have : k < 64 := by omega
        simp [h1, h2, this]
      · rw [testBit_dr dr (k - (6 + dr_before)) hdr (by omega)]
        simp
    · simp [h1]
  have hL := testBit_one_shl (39 + dr_before + dr_after + idle) k
  by_cases hw : request &&& DAP_TRANSFER_RnW = 0
  · simp only [hw, if_true, Nat.testBit_or, Nat.zero_testBit, Bool.false_or, hH, hD, hL]
    by_cases c1 : 3 + dr_before ≤ k ∧ k < 6 + dr_before
    · have c2 : ¬ (6 + dr_before ≤ k ∧ k < 38 + dr_before) := by omega
      have c3 : ¬ (k < 64 ∧ k = 39 + dr_before + dr_after + idle) := by omega
      simp [c1, c2, c3]
    · by_cases c2 : 6 + dr_before ≤ k ∧ k < 38 + dr_before
      · have c3 : ¬ (k < 64 ∧ k = 39 + dr_before + dr_after + idle) := by omega
        simp [c1, c2, c3]
      · simp only [c1, c2, if_false, decide_False, Bool.false_and, Bool.false_or, decide_True,
          Bool.true_and]
        congr 1
        apply propext
        constructor <;> intro h <;> omega
  · simp only [hw, if_false, Nat.testBit_or, Nat.zero_testBit, Bool.false_or, hH, hL]
    by_cases c1 : 3 + dr_before ≤ k ∧ k < 6 + dr_before
    · have c3 : ¬ (k < 64 ∧ k = 39 + dr_before + dr_after + idle) := by omega
      simp [c1, c3]
    · by_cases c2 : 6 + dr_before ≤ k ∧ k < 38 + dr_before
      · have c3 : ¬ (k < 64 ∧ k = 39 + dr_before + dr_after + idle) := by omega
        simp [c1, c2, c3]
      · simp only [c1, c2, if_false, decide_False, Bool.false_and, Bool.false_or, decide_True,
          Bool.true_and]
        congr 1
        apply propext
        constructor <;> intro h <;> omega

end Jtag

namespace Jtag

/-- Witness for C8: a write of 0xDEADBEEF with request 0x0C (A2 and A3 set),
two bypass bits before, one after, three idle cycles; scratch bit 39 is data
bit 31. -/
theorem dr_tdi_encoding_witness :
    (dr_encode 3 0x0C 0xDEADBEEF 2 1).buf_tdi.testBit 39
      = if 3 + 2 ≤ 39 ∧ 39 < 6 + 2 then
          ((0x0C >>> 1) &&& 0x7).testBit (39 - (3 + 2))
        else if 6 + 2 ≤ 39 ∧ 39 < 38 + 2 then
          (decide (0x0C &&& DAP_TRANSFER_RnW = 0) && (0xDEADBEEF : Nat).testBit (39 - (6 + 2)))
        else decide (39 + 1 = (dr_encode 3 0x0C 0xDEADBEEF 2 1).bitlen) :=
  dr_tdi_encoding 3 0x0C 0xDEADBEEF 2 1 39 (by decide) (by decide)

/-- C10 counterexample: with no bypass bits and no idle cycles the encoded
scan is 40 bits long, not 3 + 3 + 0 + 32 + 0 + 1 + 1 + 0 + 1 = 41. -/
theorem dr_scan_length_counterexample :
    (dr_encode 0 0 0 0 0).bitlen = 40
      ∧ (dr_encode 0 0 0 0 0).bitlen ≠ 3 + 3 + 0 + 32 + 0 + 1 + 1 + 0 + 1 := by
  decide

/-- C10 amended (DR scan length). When the 32-bit bit counter does not wrap
(in particular for every scan that fits the 64-bit scratch), the encoded bit
length of a DR transaction is 3 (select/capture/shift DR) + dr_before
+ 3 (header) + 32 + dr_after + 1 (update) + idle_cycles + 1 (idle-hold),
i.e. 40 + dr_before + dr_after + idle_cycles: the TMS-high bit for Exit1-DR
rides on the last shifted bit and adds none of its own. -/
theorem dr_scan_length (idle request dr dr_before dr_after : Nat)
    (h : 40 + dr_before + dr_after + idle < 2 ^ 32) :
    (dr_encode idle request dr dr_before dr_after).bitlen
      = 3 + dr_before + 3 + 32 + dr_after + 1 + idle + 1
    ∧ (dr_encode idle request dr dr_before dr_after).bitlen
      = 40 + dr_before + dr_after + idle := by
  rw [dr_encode_bitlen idle request dr dr_before dr_after h]
  omega

/-- Witness for C10 amended: 5 bypass bits before, 7 after, 9 idle cycles. -/
theorem dr_scan_length_witness :
    (dr_encode 9 2 0 5 7).bitlen = 3 + 5 + 3 + 32 + 7 + 1 + 9 + 1
    ∧ (dr_encode 9 2 0 5 7).bitlen = 40 + 5 + 7 + 9 :=
  dr_scan_length 9 2 0 5 7 (by decide)

end Jtag

namespace Jtag

/-! ## TAP walk of the DR scan -/

/-- Bit k of the TMS scratch of a DR scan that fits: high on bit 0 and on the
two bits 37 and 38 past the bypass counts. -/
theorem dr_tms_testBit (idle request dr dr_before dr_after k : Nat)
    (hfit : 40 + dr_before + dr_after + idle ≤ 64) :
    (dr_encode idle request dr dr_before dr_after).buf_tms.testBit k
      = decide (k = 0 ∨ k = 37 + dr_before + dr_after ∨ k = 38 + dr_before + dr_after) := by
  rw [dr_encode_fit idle request dr dr_before dr_after hfit]
  simp only [Nat.testBit_or, testBit_one_shl]
  have h1 : (0x1 : Nat).testBit k = decide (k = 0) := by
    have := @Nat.testBit_two_pow 0 k
    simpa [eq_comm] using this
  rw [h1]
  by_cases c0 : k = 0
  · simp [c0]
  · by_cases c1 : k = 37 + dr_before + dr_after
    · have : 37 + dr_before + dr_after < 64 := by omega
      simp [c1, this]
    · by_cases c2 : k = 38 + dr_before + dr_after
      · have : 38 + dr_before + dr_after < 64 := by omega
        simp [c2, this]
      · simp [c0, c1, c2]

/-- A run of scratch bits that all have the same level. -/
theorem map_range_const (g : Nat → Bool) (c : Bool) (s n : Nat)
    (h : ∀ k, s ≤ k → k < s + n → g k = c) :
    (List.range' s n).map g = List.replicate n c := by
  induction n generalizing s with
  | zero => rfl
  | succ n ih =>
    rw [List.range'_succ, List.map_cons, List.replicate_succ, h s (Nat.le_refl s) (by omega),
      ih (s + 1) (fun k h1 h2 => h k (by omega) (by omega))]

/-- Walking a concatenation: the second part starts where the first ended. -/
theorem tap_walk_append (s : TapState) (l1 l2 : List Bool) :
    tap_walk s (l1 ++ l2) = tap_walk s l1 ++ tap_walk (l1.foldl tap_step s) l2 := by
  induction l1 generalizing s with
  | nil => rfl
  | cons b bs ih => simp [tap_walk, ih]

/-- With TMS low the TAP stays in Shift-DR. -/
theorem tap_walk_shift_dr (n : Nat) :
    tap_walk TapState.ShiftDR (List.replicate n false) = List.replicate n TapState.ShiftDR := by
  induction n with
  | zero => rfl
  | succ n ih =>
    simp only [List.replicate_succ, tap_walk, tap_step]
    rw [ih]

/-- After any number of clocks with TMS low the TAP is still in Shift-DR. -/
theorem tap_run_shift_dr (n : Nat) :
    (List.replicate n false).foldl tap_step TapState.ShiftDR = TapState.ShiftDR := by
  induction n with
  | zero => rfl
  | succ n ih =>
    simp only [List.replicate_succ, List.foldl_cons, tap_step]
    exact ih

/-- With TMS low the TAP stays in Run-Test/Idle. -/
theorem tap_walk_idle (n : Nat) :
    tap_walk TapState.RunTestIdle (List.replicate n false)
      = List.replicate n TapState.RunTestIdle := by
  induction n with
  | zero => rfl
  | succ n ih =>
    simp only [List.replicate_succ, tap_walk, tap_step]
    rw [ih]

/-- From Update-DR, clocks with TMS low lead to Run-Test/Idle and stay there. -/
theorem tap_walk_update_idle (n : Nat) :
    tap_walk TapState.UpdateDR (List.replicate n false)
      = List.replicate n TapState.RunTestIdle := by
  cases n with
  | zero => rfl
  | succ n =>
    simp only [List.replicate_succ, tap_walk, tap_step]
    rw [tap_walk_idle]

/-- Splitting a run of consecutive indices in two. -/
theorem range_split (s m n : Nat) :
    List.range' s (m + n) = List.range' s m ++ List.range' (s + m) n := by
  rw [List.range'_append_1, Nat.add_comm]

/-- The walk of a DR-shaped TMS sequence from Run-Test/Idle. -/
theorem tap_walk_dr_shape (m q : Nat) :
    tap_walk TapState.RunTestIdle
        (true :: false :: false ::
          (List.replicate m false ++ true :: true :: List.replicate q false))
      = [TapState.SelectDRScan, TapState.CaptureDR, TapState.ShiftDR]
        ++ List.replicate m TapState.ShiftDR
        ++ [TapState.Exit1DR, TapState.UpdateDR] ++ List.replicate q TapState.RunTestIdle := by
  simp only [tap_walk, tap_step]
  rw [tap_walk_append, tap_walk_shift_dr, tap_run_shift_dr]
  simp only [tap_walk, tap_step, tap_walk_update_idle, List.append_assoc, List.cons_append,
    List.nil_append]

/-- The TMS bits of a DR scan that fits, in transmission order. -/
theorem dr_tms_bits (idle request dr dr_before dr_after : Nat)
    (hfit : 40 + dr_before + dr_after + idle ≤ 64) :
    tms_bits (dr_encode idle request dr dr_before dr_after).buf_tms
        (dr_encode idle request dr dr_before dr_after).bitlen
      = true :: false :: false ::
          (List.replicate (34 + dr_before + dr_after) false
            ++ true :: true :: List.replicate (idle + 1) false) := by
  have hlen : (dr_encode idle request dr dr_before dr_after).bitlen
      = 40 + dr_before + dr_after + idle :=
    dr_encode_bitlen idle request dr dr_before dr_after (by omega)
  have hsplit : List.range (40 + dr_before + dr_after + idle)
      = List.range' 0 1 ++ List.range' (0 + 1) (36 + dr_before + dr_after)
        ++ List.range' (0 + (1 + (36 + dr_before + dr_after))) 2
        ++ List.range' (0 + (1 + (36 + dr_before + dr_after) + 2)) (idle + 1) := by
    have hN : 40 + dr_before + dr_after + idle
        = 1 + (36 + dr_before + dr_after) + 2 + (idle + 1) := by omega
    rw [List.range_eq_range', hN, range_split 0 (1 + (36 + dr_before + dr_after) + 2) (idle + 1),
      range_split 0 (1 + (36 + dr_before + dr_after)) 2,
      range_split 0 1 (36 + dr_before + dr_after)]
  unfold tms_bits
  rw [hlen, hsplit]
  simp only [List.map_append]
  rw [map_range_const _ true 0 1, map_range_const _ false (0 + 1) (36 + dr_before + dr_after),
    map_range_const _ true (0 + (1 + (36 + dr_before + dr_after))) 2,
    map_range_const _ false (0 + (1 + (36 + dr_before + dr_after) + 2)) (idle + 1)]
  · have h36 : 36 + dr_before + dr_after = (34 + dr_before + dr_after) + 1 + 1 := by omega
    rw [h36]
    simp [List.replicate_succ]
  all_goals
    intro k h1 h2
    rw [dr_tms_testBit idle request dr dr_before dr_after k hfit]
    simp
    omega

/-- C9 (DR TAP walk). For a scan that fits the 64-bit scratch, clocking the
TMS scratch bits built by `vsfhal_jtag_dr`, in order and for the full encoded
length, into a TAP controller in Run-Test/Idle enters Select-DR-Scan, then
Capture-DR, then Shift-DR exactly dr_before + 3 + 32 + dr_after times (one
bit is shifted on the clock after each), then Exit1-DR and Update-DR once
each, then Run-Test/Idle idle_cycles + 1 times, and nothing else. -/
theorem dr_tap_walk (idle request dr dr_before dr_after : Nat)
    (hfit : 40 + dr_before + dr_after + idle ≤ 64) :
    tap_walk TapState.RunTestIdle
        (tms_bits (dr_encode idle request dr dr_before dr_after).buf_tms
          (dr_encode idle request dr dr_before dr_after).bitlen)
      = [TapState.SelectDRScan, TapState.CaptureDR]
        ++ List.replicate (dr_before + 3 + 32 + dr_after) TapState.ShiftDR
        ++ [TapState.Exit1DR, TapState.UpdateDR]
        ++ List.replicate (idle + 1) TapState.RunTestIdle := by
  rw [dr_tms_bits idle request dr dr_before dr_after hfit, tap_walk_dr_shape]
  have hn : dr_before + 3 + 32 + dr_after = (34 + dr_before + dr_after) + 1 := by omega
  rw [hn]
  simp only [List.replicate_succ, List.cons_append, List.append_assoc, List.nil_append]

/-- Witness for C9: two bypass bits before, one after, three idle cycles. -/
theorem dr_tap_walk_witness :
    tap_walk TapState.RunTestIdle
        (tms_bits (dr_encode 3 2 0 2 1).buf_tms (dr_encode 3 2 0 2 1).bitlen)
      = [TapState.SelectDRScan, TapState.CaptureDR]
        ++ List.replicate (2 + 3 + 32 + 1) TapState.ShiftDR
        ++ [TapState.Exit1DR, TapState.UpdateDR]
        ++ List.replicate (3 + 1) TapState.RunTestIdle :=
  dr_tap_walk 3 2 0 2 1 (by decide)

end Jtag

namespace Jtag

/-! ## What the split shift clocks -/

set_option maxRecDepth 100000 in
/-- C6 at its failing input: request 0, data 0, no bypass bits, no idle
cycles. The encoded scan is 40 bits (bulk count 3, tail 8), yet one attempt
of the retry loop clocks only 16 TCK cycles and takes 16 TDO samples, with
the unthrottled and with the throttled engine: the 24 bulk bits are never
driven. -/
theorem dr_attempt_clocks_16_of_40 :
    (dr_encode 0 0 0 0 0).bitlen = 40
      ∧ (dr_encode 0 0 0 0 0).dma_bytes = 3
      ∧ (dr_encode 0 0 0 0 0).bits_tail = 8
      ∧ tck_cycles (dr_attempt (quick_ctl 0) RwDrFn.jtag_rw_dr_quick (env_high_on [])
          (dr_encode 0 0 0 0 0) 0 (dr_start (env_high_on []) port0)).2.port.trace = 16
      ∧ (dr_attempt (quick_ctl 0) RwDrFn.jtag_rw_dr_quick (env_high_on [])
          (dr_encode 0 0 0 0 0) 0 (dr_start (env_high_on []) port0)).2.port.reads = 16
      ∧ tck_cycles (dr_attempt (slow_ctl 0 0) RwDrFn.jtag_rw_dr_slow (env_high_on [])
          (dr_encode 0 0 0 0 0) 0 (dr_start (env_high_on []) port0)).2.port.trace = 16 := by
  refine ⟨?_, ?_, ?_, ?_, ?_, ?_⟩ <;> decide

set_option maxRecDepth 100000 in
/-- C7 at its failing input: bulk byte count 3 and tail bit count 8, as
`vsfhal_jtag_dr` passes them for a scan without bypass bits or idle cycles.
The split shift clocks 16 cycles and stores 2 bytes; the flat shift of
8 + 8*3 + 8 = 40 bits on the same buffers clocks 40 cycles and stores 5. -/
theorem split_shift_skips_bulk :
    tck_cycles (jtag_rw_dr_quick (fun _ => false) 3 8
        (scratch_byte (dr_encode 0 0 0 0 0).buf_tms) (scratch_byte (dr_encode 0 0 0 0 0).buf_tdi)
        0 port0).port.trace = 16
      ∧ (jtag_rw_dr_quick (fun _ => false) 3 8
        (scratch_byte (dr_encode 0 0 0 0 0).buf_tms) (scratch_byte (dr_encode 0 0 0 0 0).buf_tdi)
        0 port0).out.length = 2
      ∧ tck_cycles (jtag_rw_quick (fun _ => false) (8 + 8 * 3 + 8)
        (scratch_byte (dr_encode 0 0 0 0 0).buf_tms) (scratch_byte (dr_encode 0 0 0 0 0).buf_tdi)
        0 port0).port.trace = 40
      ∧ (jtag_rw_quick (fun _ => false) (8 + 8 * 3 + 8)
        (scratch_byte (dr_encode 0 0 0 0 0).buf_tms) (scratch_byte (dr_encode 0 0 0 0 0).buf_tdi)
        0 port0).out.length = 5
      ∧ tck_cycles (jtag_rw_dr_slow none 0 (fun _ => false) 3 8
        (scratch_byte (dr_encode 0 0 0 0 0).buf_tms) (scratch_byte (dr_encode 0 0 0 0 0).buf_tdi)
        0 port0).port.trace = 16
      ∧ tck_cycles (jtag_rw_slow none 0 (fun _ => false) (8 + 8 * 3 + 8)
        (scratch_byte (dr_encode 0 0 0 0 0).buf_tms) (scratch_byte (dr_encode 0 0 0 0 0).buf_tdi)
        0 port0).port.trace = 40 := by
  refine ⟨?_, ?_, ?_, ?_, ?_, ?_⟩ <;> decide

end Jtag

namespace Jtag

/-! ## DR scan length and partition as the caller computes them -/

/-- C11 counterexample: with no bypass bits and no idle cycles
(dr_before + dr_after = 0 ≤ 29) the encoded scan is 40 bits long, not
8 + 0 + 0 + 0 = 8. -/
theorem dr_scan_length_29_counterexample :
    0 + 0 ≤ 29 ∧ (dr_encode 0 0 0 0 0).bitlen = 40
      ∧ (dr_encode 0 0 0 0 0).bitlen ≠ 8 + 0 + 0 + 0 := by
  decide

/-- C11 amended (DR scan length, testable form). For dr_before + dr_after ≤ 29
and every 8-bit idle count, the encoded DR-scan bit length is
40 + dr_before + dr_after + idle_cycles exactly, and the acknowledge bit
window (offsets dr_before+3 .. dr_before+5) lies entirely inside the encoded
scan. -/
theorem dr_scan_length_29 (idle request dr dr_before dr_after : Nat)
    (hsum : dr_before + dr_after ≤ 29) (hidle : idle ≤ 255) :
    (dr_encode idle request dr dr_before dr_after).bitlen
      = 40 + dr_before + dr_after + idle
    ∧ dr_before + 5 < (dr_encode idle request dr dr_before dr_after).bitlen := by
  rw [dr_encode_bitlen idle request dr dr_before dr_after (by omega)]
  omega

/-- Witness for C11 amended: dr_before = 20, dr_after = 9, 255 idle cycles. -/
theorem dr_scan_length_29_witness :
    (dr_encode 255 2 0 20 9).bitlen = 40 + 20 + 9 + 255
    ∧ 20 + 5 < (dr_encode 255 2 0 20 9).bitlen :=
  dr_scan_length_29 255 2 0 20 9 (by decide) (by decide)

/-- C12 counterexample: with no bypass bits and no idle cycles the scan is 40
bits; floor((40 - 8) / 8) = 4 and (40 - 8) mod 8 = 0, but the code passes bulk
count 3 and tail count 8, a tail that is not below 8. -/
theorem dr_partition_counterexample :
    (dr_encode 0 0 0 0 0).bitlen = 40
      ∧ (dr_encode 0 0 0 0 0).dma_bytes = 3
      ∧ (dr_encode 0 0 0 0 0).dma_bytes ≠ ((dr_encode 0 0 0 0 0).bitlen - 8) / 8
      ∧ (dr_encode 0 0 0 0 0).bits_tail = 8
      ∧ (dr_encode 0 0 0 0 0).bits_tail ≠ ((dr_encode 0 0 0 0 0).bitlen - 8) % 8
      ∧ ¬ (dr_encode 0 0 0 0 0).bits_tail < 8 := by
  decide

/-- C12 amended (head/bulk/tail boundary). For a scan that fits the 64-bit
scratch, `vsfhal_jtag_dr` computes the bulk byte count before it appends the
Exit1-DR, Update-DR and idle bits: with total_bits the encoded length,
bulk = floor((total_bits - (3 + idle) - 8) / 8), which is
floor((29 + dr_before + dr_after) / 8); the tail count is the whole
remainder total_bits - 8 - 8 * bulk, between 3 + idle and 10 + idle bits. -/
theorem dr_partition (idle request dr dr_before dr_after : Nat)
    (hfit : 40 + dr_before + dr_after + idle ≤ 64) :
    (dr_encode idle request dr dr_before dr_after).dma_bytes
      = ((dr_encode idle request dr dr_before dr_after).bitlen - (3 + idle) - 8) / 8
    ∧ (dr_encode idle request dr dr_before dr_after).dma_bytes
      = (29 + dr_before + dr_after) / 8
    ∧ (dr_encode idle request dr dr_before dr_after).bits_tail
      = (dr_encode idle request dr dr_before dr_after).bitlen - 8
        - 8 * (dr_encode idle request dr dr_before dr_after).dma_bytes
    ∧ 3 + idle ≤ (dr_encode idle request dr dr_before dr_after).bits_tail
    ∧ (dr_encode idle request dr dr_before dr_after).bits_tail ≤ 10 + idle := by
  rw [dr_encode_fit idle request dr dr_before dr_after hfit]
  have h8 : ∀ x : Nat, x >>> 3 = x / 8 := fun x => Nat.shiftRight_eq_div_pow x 3
  dsimp only
  rw [h8]
  refine ⟨?_, ?_, ?_, ?_, ?_⟩ <;> omega

/-- Witness for C12 amended: dr_before = 2, dr_after = 1, 3 idle cycles. -/
theorem dr_partition_witness :
    (dr_encode 3 2 0 2 1).dma_bytes = ((dr_encode 3 2 0 2 1).bitlen - (3 + 3) - 8) / 8
    ∧ (dr_encode 3 2 0 2 1).dma_bytes = (29 + 2 + 1) / 8
    ∧ (dr_encode 3 2 0 2 1).bits_tail
      = (dr_encode 3 2 0 2 1).bitlen - 8 - 8 * (dr_encode 3 2 0 2 1).dma_bytes
    ∧ 3 + 3 ≤ (dr_encode 3 2 0 2 1).bits_tail
    ∧ (dr_encode 3 2 0 2 1).bits_tail ≤ 10 + 3 :=
  dr_partition 3 2 0 2 1 (by decide)

/-! ## Acknowledge reordering -/

/-- C19 (acknowledge reordering is an involution). For every 3-bit value,
the reordering of line 260 applied twice gives the value back, and it maps
0..7 into 0..7. -/
theorem ack_reorder_involution (ack : Nat) (h : ack < 8) :
    ack_reorder (ack_reorder ack) = ack ∧ ack_reorder ack < 8 := by
  revert ack
  decide

/-- Witness for C19: WAIT as sampled on the wire (1) and as decoded (2). -/
theorem ack_reorder_involution_witness :
    ack_reorder (ack_reorder 1) = 1 ∧ ack_reorder 1 < 8 :=
  ack_reorder_involution 1 (by decide)

/-! ## Speed selection -/

/-- C18 counterexample: for kHz = 0 the divisor `kHz * 2000` on line 130 is
zero, so the call is not known to complete. -/
theorem config_zero_khz_counterexample :
    vsfhal_jtag_config 48000000 ctl_zero 0 100 5 = none := by
  decide

/-- C18 amended (speed selection table). For every kHz of at least 1, every
bus clock, retry and idle, `vsfhal_jtag_config` completes, leaves both shift
function pointers non-null, stores retry and idle unchanged, and selects:
kHz ≥ 3000 the unthrottled flat and split engines with no delay function;
1500 ≤ kHz < 3000 the throttled engines with delay_jtag_2000khz_1500khz;
750 ≤ kHz < 1500 throttled with delay_jtag_1000khz_750khz; 375 ≤ kHz < 750
throttled with delay_jtag_500khz_375khz; kHz < 375 throttled with
delay_jtag_250khz_188khz. -/
theorem config_speed_table (ahb_apb_freq_hz : Nat) (ctl : jtag_control_t)
    (kHz retry idle : Nat) (hk : 1 ≤ kHz) :
    ∃ c, vsfhal_jtag_config ahb_apb_freq_hz ctl kHz retry idle = some c
      ∧ c.jtag_rw ≠ none ∧ c.jtag_rw_dr ≠ none
      ∧ c.retry_limit = retry ∧ c.idle = idle
      ∧ (3000 ≤ kHz → c.jtag_rw = some RwFn.jtag_rw_quick
          ∧ c.jtag_rw_dr = some RwDrFn.jtag_rw_dr_quick ∧ c.jtag_delay = none)
      ∧ (1500 ≤ kHz → kHz < 3000 → c.jtag_rw = some RwFn.jtag_rw_slow
          ∧ c.jtag_rw_dr = some RwDrFn.jtag_rw_dr_slow
          ∧ c.jtag_delay = some DelayFn.delay_jtag_2000khz_1500khz)
      ∧ (750 ≤ kHz → kHz < 1500 → c.jtag_rw = some RwFn.jtag_rw_slow
          ∧ c.jtag_rw_dr = some RwDrFn.jtag_rw_dr_slow
          ∧ c.jtag_delay = some DelayFn.delay_jtag_1000khz_750khz)
      ∧ (375 ≤ kHz → kHz < 750 → c.jtag_rw = some RwFn.jtag_rw_slow
          ∧ c.jtag_rw_dr = some RwDrFn.jtag_rw_dr_slow
          ∧ c.jtag_delay = some DelayFn.delay_jtag_500khz_375khz)
      ∧ (kHz < 375 → c.jtag_rw = some RwFn.jtag_rw_slow
          ∧ c.jtag_rw_dr = some RwDrFn.jtag_rw_dr_slow
          ∧ c.jtag_delay = some DelayFn.delay_jtag_250khz_188khz) := by
  have hdiv : ¬ (kHz * 2000 = 0) := by omega
  by_cases h1 : kHz ≥ 3000
  · refine ⟨_, by simp only [vsfhal_jtag_config, if_neg hdiv, if_pos h1]; rfl, ?_⟩
    refine ⟨by simp, by simp, rfl, rfl, fun _ => ⟨rfl, rfl, rfl⟩, ?_, ?_, ?_, ?_⟩ <;>
      intros <;> omega
  · by_cases h2 : kHz ≥ 1500
    · refine ⟨_, by simp only [vsfhal_jtag_config, if_neg hdiv, if_neg h1, if_pos h2]; rfl, ?_⟩
      refine ⟨by simp, by simp, rfl, rfl, ?_, fun _ _ => ⟨rfl, rfl, rfl⟩, ?_, ?_, ?_⟩ <;>
        intros <;> omega
    · by_cases h3 : kHz ≥ 750
      · refine ⟨_, by simp only [vsfhal_jtag_config, if_neg hdiv, if_neg h1, if_neg h2,
          if_pos h3]; rfl, ?_⟩
        refine ⟨by simp, by simp, rfl, rfl, ?_, ?_, fun _ _ => ⟨rfl, rfl, rfl⟩, ?_, ?_⟩ <;>
          intros <;> omega
      · by_cases h4 : kHz ≥ 375
        · refine ⟨_, by simp only [vsfhal_jtag_config, if_neg hdiv, if_neg h1, if_neg h2,
            if_neg h3, if_pos h4]; rfl, ?_⟩
          refine ⟨by simp, by simp, rfl, rfl, ?_, ?_, ?_, fun _ _ => ⟨rfl, rfl, rfl⟩, ?_⟩ <;>
            intros <;> omega
        · refine ⟨_, by simp only [vsfhal_jtag_config, if_neg hdiv, if_neg h1, if_neg h2,
            if_neg h3, if_neg h4]; rfl, ?_⟩
          refine ⟨by simp, by simp, rfl, rfl, ?_, ?_, ?_, ?_, fun _ => ⟨rfl, rfl, rfl⟩⟩ <;>
            intros <;> omega

end Jtag

namespace Jtag

/-! ## IR scan encoding -/

/-- The mask `((uint64_t)0x1 << n) - 1` for a shift below 64. -/
theorem mask64_eq (n : Nat) (h : n < 64) : usub64 (u64 (0x1 <<< n)) 1 = 2 ^ n - 1 := by
  have h1 : 1 ≤ 2 ^ n := Nat.one_le_two_pow
  have h2 : 2 ^ n < 2 ^ 64 := Nat.pow_lt_pow_right (by decide) h
  rw [Nat.one_shiftLeft]
  unfold usub64 u64
  generalize 2 ^ n = x at h1 h2
  omega

/-- A guarded `buf |= x` whose operand is 0 whenever the guard fails is the
same as the unguarded one. -/
theorem or_if_zero (c : Prop) [Decidable c] (a x : Nat) (h : ¬ c → x = 0) :
    (if c then a ||| x else a) = a ||| x := by
  by_cases hc : c
  · rw [if_pos hc]
  · rw [if_neg hc, h hc, Nat.or_zero]

/-- An empty mask shifted into place is 0. -/
theorem u64_mask_zero (n s : Nat) (h : n = 0) : u64 ((2 ^ n - 1) <<< s) = 0 := by
  subst h
  simp [u64]

/-- Closed form of what `vsfhal_jtag_ir` builds, for a register length of at
least 1 and a scan that fits the 64-bit scratch: no 32-bit counter wraps and
each guarded block is the unguarded one. -/
theorem ir_encode_fit (ir lr_length ir_before ir_after : Nat) (hl : 1 ≤ lr_length)
    (hfit : 6 + ir_before + lr_length + ir_after ≤ 64) :
    ir_encode ir lr_length ir_before ir_after
      = { buf_tms := 0x3 ||| u64 (0x1 <<< (3 + ir_before + lr_length + ir_after))
            ||| u64 (0x1 <<< (4 + ir_before + lr_length + ir_after)),
          buf_tdi :=
            (if ir_after = 0 then
              u64 ((2 ^ ir_before - 1) <<< 4)
                ||| u64 ((ir &&& 2 ^ (lr_length - 1) - 1) <<< (4 + ir_before))
                ||| u32 (((ir >>> (lr_length - 1)) &&& 0x1) <<< (3 + ir_before + lr_length))
            else
              u64 ((2 ^ ir_before - 1) <<< 4)
                ||| u64 ((ir &&& 2 ^ (lr_length - 1) - 1) <<< (4 + ir_before))
                ||| u32 (((ir >>> (lr_length - 1)) &&& 0x1) <<< (3 + ir_before + lr_length))
                ||| u64 ((2 ^ (ir_after - 1) - 1) <<< (4 + ir_before + lr_length))
                ||| u64 (0x1 <<< (3 + ir_before + lr_length + ir_after)))
            ||| u64 (0x1 <<< (5 + ir_before + lr_length + ir_after)),
          bitlen := 6 + ir_before + lr_length + ir_after } := by
  have e_lr : usub32 lr_length 1 = lr_length - 1 := by unfold usub32; omega
  have e_b1 : (if ir_before ≠ 0 then u32 (4 + ir_before) else 4) = 4 + ir_before := by
    unfold u32; split <;> omega
  have e_b2 : (if lr_length - 1 ≠ 0 then u32 (4 + ir_before + (lr_length - 1)) else 4 + ir_before)
      = 3 + ir_before + lr_length := by
    unfold u32; split <;> omega
  have e_b3 : u32 (3 + ir_before + lr_length + 1) = 4 + ir_before + lr_length := by
    unfold u32; omega
  have e_m1 := mask64_eq ir_before (by omega)
  have e_m2 := mask64_eq (lr_length - 1) (by omega)
  have e_i1 : (if ¬ ir_before = 0 then 0 ||| u64 ((2 ^ ir_before - 1) <<< 4) else 0)
      = u64 ((2 ^ ir_before - 1) <<< 4) := by
    rw [or_if_zero _ _ _ (fun h => u64_mask_zero ir_before 4 (not_not.mp h)), Nat.zero_or]
  have e_i2 : ∀ a, (if ¬ lr_length - 1 = 0 then
        a ||| u64 ((ir &&& 2 ^ (lr_length - 1) - 1) <<< (4 + ir_before)) else a)
      = a ||| u64 ((ir &&& 2 ^ (lr_length - 1) - 1) <<< (4 + ir_before)) := by
    intro a
    apply or_if_zero
    intro h
    rw [not_not.mp h]
    simp [u64]
  by_cases ha : ir_after = 0
  · subst ha
    have e_b5 : u32 (4 + ir_before + lr_length + 1) = 5 + ir_before + lr_length := by
      unfold u32; omega
    have e_b6 : u32 (5 + ir_before + lr_length + 1) = 6 + ir_before + lr_length := by
      unfold u32; omega
    simp only [ir_encode, e_lr, e_b1, e_b2, e_b3, e_b5, e_b6, e_m1, e_m2, e_i1, e_i2, ne_eq,
      not_true_eq_false, if_false, if_true, Nat.add_zero]
  · have e_a : usub32 ir_after 1 = ir_after - 1 := by unfold usub32; omega
    have e_m3 := mask64_eq (ir_after - 1) (by omega)
    have e_b4 : (if ¬ ir_after - 1 = 0 then u32 (4 + ir_before + lr_length + (ir_after - 1))
        else 4 + ir_before + lr_length) = 3 + ir_before + lr_length + ir_after := by
      unfold u32; split <;> omega
    have e_b5 : u32 (3 + ir_before + lr_length + ir_after + 1)
        = 4 + ir_before + lr_length + ir_after := by
      unfold u32; omega
    have e_b6 : u32 (4 + ir_before + lr_length + ir_after + 1)
        = 5 + ir_before + lr_length + ir_after := by
      unfold u32; omega
    have e_b7 : u32 (5 + ir_before + lr_length + ir_after + 1)
        = 6 + ir_before + lr_length + ir_after := by
      unfold u32; omega
    have e_i3 : ∀ a, (if ¬ ir_after - 1 = 0 then
          a ||| u64 ((2 ^ (ir_after - 1) - 1) <<< (4 + ir_before + lr_length)) else a)
        = a ||| u64 ((2 ^ (ir_after - 1) - 1) <<< (4 + ir_before + lr_length)) := by
      intro a
      exact or_if_zero _ _ _ (fun h => u64_mask_zero (ir_after - 1) _ (not_not.mp h))
    simp only [ir_encode, e_lr, e_b1, e_b2, e_b3, e_a, e_b4, e_b5, e_b6, e_b7, e_m1, e_m2, e_m3,
      e_i1, e_i2, e_i3, ne_eq, ha, not_false_eq_true, if_false, if_true]

end Jtag

namespace Jtag

/-- C13 at its failing inputs. A 32-bit instruction 0xFFFFFFFF with no bypass
bits (scan of 38 bits) has its top bit, instruction bit 31, due at scratch
bit 35; a 4-bit instruction 0xF behind 28 bypass bits (scan of 38 bits) has
its top bit, instruction bit 3, due at scratch bit 35. In both the TDI
scratch holds 0 there, while the lower instruction bits are in place. -/
theorem ir_top_bit_lost_above_bit_31 :
    (6 + 0 + 32 + 0 ≤ 64
      ∧ (0xFFFFFFFF : Nat).testBit (32 - 1) = true
      ∧ (ir_encode 0xFFFFFFFF 32 0 0).buf_tdi.testBit (4 + 0 + 32 - 1) = false
      ∧ (ir_encode 0xFFFFFFFF 32 0 0).buf_tdi.testBit (4 + 0 + 31 - 1) = true)
    ∧ (6 + 28 + 4 + 0 ≤ 64
      ∧ (0xF : Nat).testBit (4 - 1) = true
      ∧ (ir_encode 0xF 4 28 0).buf_tdi.testBit (4 + 28 + 4 - 1) = false
      ∧ (ir_encode 0xF 4 28 0).buf_tdi.testBit (4 + 28 + 3 - 1) = true) := by
  decide

/-- Bits of a run of ones `((1 << n) - 1) << s` held in a `uint64_t`. -/
theorem testBit_mask_shl (n s k : Nat) :
    (u64 ((2 ^ n - 1) <<< s)).testBit k = decide (k < 64 ∧ s ≤ k ∧ k < s + n) := by
  unfold u64
  rw [Nat.testBit_mod_two_pow, Nat.testBit_shiftLeft, Nat.testBit_two_pow_sub_one]
  by_cases h1 : k < 64 <;> by_cases h2 : s ≤ k <;> by_cases h3 : k < s + n <;>
    simp [h1, h2, h3] <;> omega

/-- Bit k of the TMS scratch of an IR scan that fits: high on bits 0 and 1
and on the two bits after the last-but-one shifted bit. -/
theorem ir_tms_testBit (ir lr_length ir_before ir_after k : Nat) (hl : 1 ≤ lr_length)
    (hfit : 6 + ir_before + lr_length + ir_after ≤ 64) :
    (ir_encode ir lr_length ir_before ir_after).buf_tms.testBit k
      = decide (k = 0 ∨ k = 1 ∨ k = 3 + ir_before + lr_length + ir_after
          ∨ k = 4 + ir_before + lr_length + ir_after) := by
  rw [ir_encode_fit ir lr_length ir_before ir_after hl hfit]
  simp only [Nat.testBit_or, testBit_one_shl]
  have h3 : (0x3 : Nat).testBit k = decide (k < 2) := by
    have := Nat.testBit_two_pow_sub_one 2 k
    simpa using this
  rw [h3]
  by_cases c0 : k < 2
  · have : k = 0 ∨ k = 1 ∨ k = 3 + ir_before + lr_length + ir_after
        ∨ k = 4 + ir_before + lr_length + ir_after := by omega
    simp [c0, this]
  · by_cases c1 : k = 3 + ir_before + lr_length + ir_after
    · have : 3 + ir_before + lr_length + ir_after < 64 := by omega
      simp [c1, this]
    · by_cases c2 : k = 4 + ir_before + lr_length + ir_after
      · have : 4 + ir_before + lr_length + ir_after < 64 := by omega
        simp [c2, this]
      · have n0 : ¬ k = 0 := by omega
        have n1 : ¬ k = 1 := by omega
        simp [c0, c1, c2, n0, n1]

/-- C14 (IR bypass padding and framing). For a register length of at least 1
and a scan that fits the 64-bit scratch, the buffers built by
`vsfhal_jtag_ir` have TDI = 1 on each of the bypass_before bits after the 4
state-walk bits and on each of the bypass_after bits after the instruction;
TMS is high exactly on bits 0, 1, on the last shifted bit (Exit1-IR) and on
the bit after it (Update-IR), so with bypass_after > 0 it is low on the
instruction's top bit and raised on the last bypass_after bit; the final bit
has TMS low and TDI = 1; and the bit count passed to the flat shift is
6 + bypass_before + register_length + bypass_after. -/
theorem ir_padding_and_framing (ir lr_length ir_before ir_after : Nat) (hl : 1 ≤ lr_length)
    (hfit : 6 + ir_before + lr_length + ir_after ≤ 64) :
    (∀ k, 4 ≤ k → k < 4 + ir_before →
        (ir_encode ir lr_length ir_before ir_after).buf_tdi.testBit k = true)
    ∧ (∀ k, 4 + ir_before + lr_length ≤ k → k < 4 + ir_before + lr_length + ir_after →
        (ir_encode ir lr_length ir_before ir_after).buf_tdi.testBit k = true)
    ∧ (∀ k, (ir_encode ir lr_length ir_before ir_after).buf_tms.testBit k
        = decide (k = 0 ∨ k = 1 ∨ k = 3 + ir_before + lr_length + ir_after
            ∨ k = 4 + ir_before + lr_length + ir_after))
    ∧ (0 < ir_after →
        (ir_encode ir lr_length ir_before ir_after).buf_tms.testBit
          (4 + ir_before + lr_length - 1) = false
        ∧ (ir_encode ir lr_length ir_before ir_after).buf_tms.testBit
          (4 + ir_before + lr_length + ir_after - 1) = true)
    ∧ (ir_encode ir lr_length ir_before ir_after).buf_tms.testBit
        (4 + ir_before + lr_length + ir_after) = true
    ∧ (ir_encode ir lr_length ir_before ir_after).buf_tms.testBit
        (5 + ir_before + lr_length + ir_after) = false
    ∧ (ir_encode ir lr_length ir_before ir_after).buf_tdi.testBit
        (5 + ir_before + lr_length + ir_after) = true
    ∧ (ir_encode ir lr_length ir_before ir_after).bitlen
        = 6 + ir_before + lr_length + ir_after := by
  have htms := ir_tms_testBit ir lr_length ir_before ir_after
  refine ⟨?_, ?_, fun k => htms k hl hfit, ?_, ?_, ?_, ?_, ?_⟩
  · intro k h1 h2
    rw [ir_encode_fit ir lr_length ir_before ir_after hl hfit]
    have hk : k < 64 ∧ 4 ≤ k ∧ k < 4 + ir_before := ⟨by omega, h1, h2⟩
    by_cases ha : ir_after = 0 <;>
      simp [ha, Nat.testBit_or, testBit_mask_shl, hk]
  · intro k h1 h2
    rw [ir_encode_fit ir lr_length ir_before ir_after hl hfit]
    have ha : ¬ ir_after = 0 := by omega
    by_cases hlast : k = 3 + ir_before + lr_length + ir_after
    · have hk : 3 + ir_before + lr_length + ir_after < 64 := by omega
      rw [hlast]
      simp [ha, Nat.testBit_or, testBit_one_shl, hk]
    · have hk : k < 64 ∧ 4 + ir_before + lr_length ≤ k
          ∧ k < 4 + ir_before + lr_length + (ir_after - 1) := ⟨by omega, h1, by omega⟩
      simp only [ha, if_false, Nat.testBit_or, testBit_mask_shl, hk]
      simp
  · intro hpos
    rw [htms _ hl hfit, htms _ hl hfit]
    constructor
    · simp only [decide_eq_false_iff_not]
      omega
    · simp only [decide_eq_true_eq]
      omega
  · rw [htms _ hl hfit]
    simp
  · rw [htms _ hl hfit]
    simp only [decide_eq_false_iff_not]
    omega
  · rw [ir_encode_fit ir lr_length ir_before ir_after hl hfit]
    have hk : 5 + ir_before + lr_length + ir_after < 64 := by omega
    simp only [Nat.testBit_or, testBit_one_shl]
    simp [hk]
  · rw [ir_encode_fit ir lr_length ir_before ir_after hl hfit]

end Jtag

namespace Jtag

/-- Witness for C14: a 4-bit instruction with two TAPs before and three
after. -/
theorem ir_padding_and_framing_witness :
    (∀ k, 4 ≤ k → k < 4 + 2 → (ir_encode 0x5 4 2 3).buf_tdi.testBit k = true)
    ∧ (∀ k, 4 + 2 + 4 ≤ k → k < 4 + 2 + 4 + 3 → (ir_encode 0x5 4 2 3).buf_tdi.testBit k = true)
    ∧ (∀ k, (ir_encode 0x5 4 2 3).buf_tms.testBit k
        = decide (k = 0 ∨ k = 1 ∨ k = 3 + 2 + 4 + 3 ∨ k = 4 + 2 + 4 + 3))
    ∧ (0 < 3 →
        (ir_encode 0x5 4 2 3).buf_tms.testBit (4 + 2 + 4 - 1) = false
        ∧ (ir_encode 0x5 4 2 3).buf_tms.testBit (4 + 2 + 4 + 3 - 1) = true)
    ∧ (ir_encode 0x5 4 2 3).buf_tms.testBit (4 + 2 + 4 + 3) = true
    ∧ (ir_encode 0x5 4 2 3).buf_tms.testBit (5 + 2 + 4 + 3) = false
    ∧ (ir_encode 0x5 4 2 3).buf_tdi.testBit (5 + 2 + 4 + 3) = true
    ∧ (ir_encode 0x5 4 2 3).bitlen = 6 + 2 + 4 + 3 :=
  ir_padding_and_framing 0x5 4 2 3 (by decide) (by decide)

/-! ## TAP walk of the IR scan -/

/-- With TMS low the TAP stays in Shift-IR. -/
theorem tap_walk_shift_ir (n : Nat) :
    tap_walk TapState.ShiftIR (List.replicate n false) = List.replicate n TapState.ShiftIR := by
  induction n with
  | zero => rfl
  | succ n ih =>
    simp only [List.replicate_succ, tap_walk, tap_step]
    rw [ih]

/-- After any number of clocks with TMS low the TAP is still in Shift-IR. -/
theorem tap_run_shift_ir (n : Nat) :
    (List.replicate n false).foldl tap_step TapState.ShiftIR = TapState.ShiftIR := by
  induction n with
  | zero => rfl
  | succ n ih =>
    simp only [List.replicate_succ, List.foldl_cons, tap_step]
    exact ih

/-- The walk of an IR-shaped TMS sequence from Run-Test/Idle. -/
theorem tap_walk_ir_shape (m : Nat) :
    tap_walk TapState.RunTestIdle
        (true :: true :: false :: false :: (List.replicate m false ++ [true, true, false]))
      = [TapState.SelectDRScan, TapState.SelectIRScan, TapState.CaptureIR, TapState.ShiftIR]
        ++ List.replicate m TapState.ShiftIR
        ++ [TapState.Exit1IR, TapState.UpdateIR, TapState.RunTestIdle] := by
  simp only [tap_walk, tap_step]
  rw [tap_walk_append, tap_walk_shift_ir, tap_run_shift_ir]
  simp only [tap_walk, tap_step, List.append_assoc, List.cons_append, List.nil_append]

/-- The TMS bits of an IR scan that fits, in transmission order. -/
theorem ir_tms_bits (ir lr_length ir_before ir_after : Nat) (hl : 1 ≤ lr_length)
    (hfit : 6 + ir_before + lr_length + ir_after ≤ 64) :
    tms_bits (ir_encode ir lr_length ir_before ir_after).buf_tms
        (ir_encode ir lr_length ir_before ir_after).bitlen
      = true :: true :: false :: false ::
          (List.replicate (ir_before + lr_length + ir_after - 1) false ++ [true, true, false]) := by
  have hlen : (ir_encode ir lr_length ir_before ir_after).bitlen
      = 6 + ir_before + lr_length + ir_after := by
    rw [ir_encode_fit ir lr_length ir_before ir_after hl hfit]
  have hsplit : List.range (6 + ir_before + lr_length + ir_after)
      = List.range' 0 2 ++ List.range' (0 + 2) (1 + ir_before + lr_length + ir_after)
        ++ List.range' (0 + (2 + (1 + ir_before + lr_length + ir_after))) 2
        ++ List.range' (0 + (2 + (1 + ir_before + lr_length + ir_after) + 2)) 1 := by
    have hN : 6 + ir_before + lr_length + ir_after
        = 2 + (1 + ir_before + lr_length + ir_after) + 2 + 1 := by omega
    rw [List.range_eq_range', hN,
      range_split 0 (2 + (1 + ir_before + lr_length + ir_after) + 2) 1,
      range_split 0 (2 + (1 + ir_before + lr_length + ir_after)) 2,
      range_split 0 2 (1 + ir_before + lr_length + ir_after)]
  unfold tms_bits
  rw [hlen, hsplit]
  simp only [List.map_append]
  rw [map_range_const _ true 0 2,
    map_range_const _ false (0 + 2) (1 + ir_before + lr_length + ir_after),
    map_range_const _ true (0 + (2 + (1 + ir_before + lr_length + ir_after))) 2,
    map_range_const _ false (0 + (2 + (1 + ir_before + lr_length + ir_after) + 2)) 1]
  · have hm : 1 + ir_before + lr_length + ir_after
        = (ir_before + lr_length + ir_after - 1) + 1 + 1 := by omega
    rw [hm]
    simp [List.replicate_succ]
  all_goals
    intro k h1 h2
    rw [ir_tms_testBit ir lr_length ir_before ir_after k hl hfit]
    simp
    omega

/-- C15 (IR TAP walk). For a register length of at least 1 and a scan that
fits the 64-bit scratch, clocking the TMS scratch bits built by
`vsfhal_jtag_ir`, in order and for the full bit count passed to the flat
shift, into a TAP controller in Run-Test/Idle enters Select-DR-Scan,
Select-IR-Scan, Capture-IR, then Shift-IR exactly
bypass_before + register_length + bypass_after times (one bit is shifted on
the clock after each), then Exit1-IR and Update-IR once each, and ends in
Run-Test/Idle. -/
theorem ir_tap_walk (ir lr_length ir_before ir_after : Nat) (hl : 1 ≤ lr_length)
    (hfit : 6 + ir_before + lr_length + ir_after ≤ 64) :
    tap_walk TapState.RunTestIdle
        (tms_bits (ir_encode ir lr_length ir_before ir_after).buf_tms
          (ir_encode ir lr_length ir_before ir_after).bitlen)
      = [TapState.SelectDRScan, TapState.SelectIRScan, TapState.CaptureIR]
        ++ List.replicate (ir_before + lr_length + ir_after) TapState.ShiftIR
        ++ [TapState.Exit1IR, TapState.UpdateIR, TapState.RunTestIdle] := by
  rw [ir_tms_bits ir lr_length ir_before ir_after hl hfit, tap_walk_ir_shape]
  have hn : ir_before + lr_length + ir_after = (ir_before + lr_length + ir_after - 1) + 1 := by
    omega
  generalize ir_before + lr_length + ir_after - 1 = m at hn
  rw [hn]
  simp only [List.replicate_succ, List.cons_append, List.append_assoc, List.nil_append]

/-- Witness for C15: a 4-bit instruction with two TAPs before and three
after. -/
theorem ir_tap_walk_witness :
    tap_walk TapState.RunTestIdle
        (tms_bits (ir_encode 0x5 4 2 3).buf_tms (ir_encode 0x5 4 2 3).bitlen)
      = [TapState.SelectDRScan, TapState.SelectIRScan, TapState.CaptureIR]
        ++ List.replicate (2 + 4 + 3) TapState.ShiftIR
        ++ [TapState.Exit1IR, TapState.UpdateIR, TapState.RunTestIdle] :=
  ir_tap_walk 0x5 4 2 3 (by decide) (by decide)

end Jtag

namespace Jtag

/-- Witness for C18 amended: 374 kHz on a 48 MHz bus clock, from the zeroed
control block. -/
theorem config_speed_table_witness :
    ∃ c, vsfhal_jtag_config 48000000 ctl_zero 374 100 5 = some c
      ∧ c.jtag_rw ≠ none ∧ c.jtag_rw_dr ≠ none
      ∧ c.retry_limit = 100 ∧ c.idle = 5
      ∧ (3000 ≤ 374 → c.jtag_rw = some RwFn.jtag_rw_quick
          ∧ c.jtag_rw_dr = some RwDrFn.jtag_rw_dr_quick ∧ c.jtag_delay = none)
      ∧ (1500 ≤ 374 → 374 < 3000 → c.jtag_rw = some RwFn.jtag_rw_slow
          ∧ c.jtag_rw_dr = some RwDrFn.jtag_rw_dr_slow
          ∧ c.jtag_delay = some DelayFn.delay_jtag_2000khz_1500khz)
      ∧ (750 ≤ 374 → 374 < 1500 → c.jtag_rw = some RwFn.jtag_rw_slow
          ∧ c.jtag_rw_dr = some RwDrFn.jtag_rw_dr_slow
          ∧ c.jtag_delay = some DelayFn.delay_jtag_1000khz_750khz)
      ∧ (375 ≤ 374 → 374 < 750 → c.jtag_rw = some RwFn.jtag_rw_slow
          ∧ c.jtag_rw_dr = some RwDrFn.jtag_rw_dr_slow
          ∧ c.jtag_delay = some DelayFn.delay_jtag_500khz_375khz)
      ∧ (374 < 375 → c.jtag_rw = some RwFn.jtag_rw_slow
          ∧ c.jtag_rw_dr = some RwDrFn.jtag_rw_dr_slow
          ∧ c.jtag_delay = some DelayFn.delay_jtag_250khz_188khz) :=
  config_speed_table 48000000 ctl_zero 374 100 5 (by decide)

end Jtag

namespace Jtag

/-! ## The shift engines against the wire-level reference -/

/-- The unthrottled cycle is the reference cycle with no delay events. -/
theorem cycle_quick_eq (line : Nat → Bool) (p : Port) (r : Regs) :
    cycle_quick line p r = cycle_ref [] line p r := by
  unfold cycle_quick cycle_ref cycle_log Port.emit Port.sample
  rcases Nat.mod_two_eq_zero_or_one r.tdi_last with h1 | h1 <;>
    rcases Nat.mod_two_eq_zero_or_one r.tms_last with h2 | h2 <;>
    simp [h1, h2]

/-- The throttled cycle is the reference cycle with the delay statement's
events after each clock edge. -/
theorem cycle_slow_eq (jtag_delay : Option DelayFn) (delay_tick : Nat) (line : Nat → Bool)
    (p : Port) (r : Regs) :
    cycle_slow jtag_delay delay_tick line p r
      = cycle_ref (delay_log jtag_delay delay_tick) line p r := by
  unfold cycle_slow cycle_ref cycle_log Port.sample
  cases jtag_delay <;>
    rcases Nat.mod_two_eq_zero_or_one r.tdi_last with h1 | h1 <;>
    rcases Nat.mod_two_eq_zero_or_one r.tms_last with h2 | h2 <;>
    simp [h1, h2, call_delay, delay_log, Port.emit]

/-- The bit loop run one more time is the loop followed by one more cycle. -/
theorem bit_loop_succ (c : Port → Regs → Port × Regs) (m : Nat) (p : Port) (r : Regs) :
    bit_loop c (m + 1) p r = c (bit_loop c m p r).1 (bit_loop c m p r).2 := by
  induction m generalizing p r with
  | zero => rfl
  | succ m ih =>
    rw [bit_loop, ih]
    rfl

/-- The bit loop of `m` cycles against the reference: the log grows by the
cycles of the low `m` bits of the two locals, which end up shifted right by
`m`, and the accumulator collects the samples. -/
theorem bit_loop_ref (d : List LineEvent) (line : Nat → Bool) (m : Nat) (p : Port) (r : Regs) :
    bit_loop (cycle_ref d line) m p r
      = ({ trace := p.trace ++ wire_log d (fun i => r.tms_last.testBit i)
              (fun i => r.tdi_last.testBit i) (fun i => line (p.reads + i)) m,
           reads := p.reads + m },
         { tms_last := r.tms_last >>> m, tdi_last := r.tdi_last >>> m,
           tdo_last := tdo_acc (fun i => line (p.reads + i)) r.tdo_last m }) := by
  induction m with
  | zero => simp [bit_loop, wire_log, tdo_acc]
  | succ m ih =>
    rw [bit_loop_succ, ih]
    simp only [cycle_ref, wire_log, tdo_acc, Nat.testBit_shiftRight, Nat.add_zero,
      List.append_assoc, Nat.shiftRight_add, Nat.add_assoc]

end Jtag

namespace Jtag

/-- Bits of the accumulator after `m` cycles: what was there moves down by
`m`, and sample `k` sits at bit `8 - m + k`. -/
theorem tdo_acc_testBit (level : Nat → Bool) (acc m j : Nat) :
    (tdo_acc level acc m).testBit j
      = (acc.testBit (j + m) || (decide (j < 8 ∧ 8 ≤ j + m) && level (j + m - 8))) := by
  induction m generalizing j with
  | zero =>
    have h : ¬ (j < 8 ∧ 8 ≤ j + 0) := by omega
    simp [tdo_acc, h]
  | succ m ih =>
    simp only [tdo_acc, Nat.testBit_or, Nat.testBit_shiftRight, ih]
    have h80 : ∀ b : Bool, (if b then (0x80 : Nat) else 0x00).testBit j = (decide (j = 7) && b) := by
      intro b
      cases b
      · simp
      · have := @Nat.testBit_two_pow 7 j
        simpa [eq_comm] using this
    rw [h80]
    have e1 : 1 + j + m = j + (m + 1) := by omega
    rw [e1]
    by_cases h7 : j = 7
    · subst h7
      have ha : ¬ (1 + 7 < 8 ∧ 8 ≤ 1 + 7 + m) := by omega
      have hb : 7 < 8 ∧ 8 ≤ 7 + (m + 1) := by omega
      have hc : 7 + (m + 1) - 8 = m := by omega
      simp [ha, hb, hc]
    · by_cases hlt : j < 7
      · have ha : 1 + j < 8 := by omega
        have hb : j < 8 := by omega
        simp [h7, ha, hb]
      · have ha : ¬ 1 + j < 8 := by omega
        have hb : ¬ j < 8 := by omega
        simp [h7, ha, hb]

/-- The log depends only on the bits and samples of the cycles it covers. -/
theorem wire_log_congr (d : List LineEvent) (f g h f2 g2 h2 : Nat → Bool) (n : Nat)
    (hf : ∀ i, i < n → f i = f2 i) (hg : ∀ i, i < n → g i = g2 i)
    (hh : ∀ i, i < n → h i = h2 i) :
    wire_log d f g h n = wire_log d f2 g2 h2 n := by
  induction n with
  | zero => rfl
  | succ n ih =>
    simp only [wire_log]
    rw [ih (fun i hi => hf i (by omega)) (fun i hi => hg i (by omega))
      (fun i hi => hh i (by omega)), hf n (by omega), hg n (by omega), hh n (by omega)]

/-- The log of `a + b` cycles is the log of the first `a` followed by the log
of the next `b`. -/
theorem wire_log_append (d : List LineEvent) (f g h : Nat → Bool) (a b : Nat) :
    wire_log d f g h (a + b)
      = wire_log d f g h a
        ++ wire_log d (fun i => f (a + i)) (fun i => g (a + i)) (fun i => h (a + i)) b := by
  induction b with
  | zero => simp [wire_log]
  | succ b ih =>
    rw [← Nat.add_assoc]
    simp only [wire_log, ih, List.append_assoc]

/-- Reading a byte list that has just been extended by one store. -/
theorem getD_snoc (l : List Nat) (b j : Nat) :
    (l ++ [b]).getD j 0 = if j < l.length then l.getD j 0 else if j = l.length then b else 0 := by
  by_cases h1 : j < l.length
  · rw [if_pos h1, List.getD_append _ _ _ _ h1]
  · rw [if_neg h1, List.getD_append_right _ _ _ _ (by omega)]
    by_cases h2 : j = l.length
    · rw [if_pos h2, h2, Nat.sub_self]
      rfl
    · rw [if_neg h2]
      have h3 : j - l.length = (j - l.length - 1) + 1 := by omega
      rw [h3]
      rfl

/-- A byte has no bit above bit 7. -/
theorem testBit_byte_high (x k : Nat) (hx : x < 256) (hk : 8 ≤ k) : x.testBit k = false :=
  Nat.testBit_lt_two_pow (Nat.lt_of_lt_of_le hx (Nat.pow_le_pow_right (by decide) hk : 2 ^ 8 ≤ 2 ^ k))

end Jtag

namespace Jtag

/-- The accumulator after a whole byte holds exactly the 8 samples, whatever
byte value it started from. -/
theorem tdo_acc_byte (level : Nat → Bool) (acc i : Nat) (hacc : acc < 256) :
    (tdo_acc level acc 8).testBit i = (decide (i < 8) && level i) := by
  rw [tdo_acc_testBit, testBit_byte_high acc (i + 8) hacc (by omega)]
  by_cases h : i < 8
  · have h2 : i < 8 ∧ 8 ≤ i + 8 := ⟨h, by omega⟩
    simp [h, h2]
  · have h2 : ¬ (i < 8 ∧ 8 ≤ i + 8) := fun hh => h hh.1
    simp [h, h2]

/-- The right-aligned tail byte holds exactly the `t` samples of the tail. -/
theorem tdo_acc_tail (level : Nat → Bool) (t i : Nat) (ht : t < 8) :
    ((tdo_acc level 0 t) >>> (8 - t)).testBit i = (decide (i < t) && level i) := by
  rw [Nat.testBit_shiftRight, tdo_acc_testBit, Nat.zero_testBit]
  by_cases h : i < t
  · have h2 : 8 - t + i < 8 ∧ 8 ≤ 8 - t + i + t := by omega
    have h3 : 8 - t + i + t - 8 = i := by omega
    simp [h, h2, h3]
  · have h2 : ¬ (8 - t + i < 8 ∧ 8 ≤ 8 - t + i + t) := by omega
    simp [h, h2]

/-- One whole byte keeps the engine on the reference: after `8 * j` bits it
brings the state to `8 * j + 8` bits, and leaves a byte in the accumulator. -/
theorem shift_byte_ok (d : List LineEvent) (line : Nat → Bool) (tms tdi : Nat → Nat) (p : Port)
    (j : Nat) (e : Engine) (h : shifted d line tms tdi p (8 * j) e) (hacc : e.tdo_last < 256) :
    shifted d line tms tdi p (8 * j + 8) (shift_byte (cycle_ref d line) tms tdi e)
      ∧ (shift_byte (cycle_ref d line) tms tdi e).tdo_last < 256 := by
  obtain ⟨htr, hrd, hlen, hout, hrdx⟩ := h
  have hj : e.rd = j := by omega
  have hlen2 : e.out.length = j := by omega
  unfold shift_byte
  rw [bit_loop_ref]
  refine ⟨⟨?_, ?_, ?_, ?_, ?_⟩, ?_⟩
  · show e.port.trace ++ wire_log d _ _ _ 8 = _
    rw [htr, wire_log_append, List.append_assoc]
    congr 1
    congr 1
    apply wire_log_congr
    · intro i hi
      show (u8 (tms e.rd)).testBit i = buf_bit tms (8 * j + i)
      unfold buf_bit
      rw [hj, show (8 * j + i) / 8 = j by omega, show (8 * j + i) % 8 = i by omega]
    · intro i hi
      show (u8 (tdi e.rd)).testBit i = buf_bit tdi (8 * j + i)
      unfold buf_bit
      rw [hj, show (8 * j + i) / 8 = j by omega, show (8 * j + i) % 8 = i by omega]
    · intro i hi
      show line (e.port.reads + i) = line (p.reads + (8 * j + i))
      rw [hrd, Nat.add_assoc]
  · show e.port.reads + 8 = _
    omega
  · show (e.out ++ [_]).length = _
    rw [List.length_append, List.length_singleton]
    omega
  · intro j2 i
    show ((e.out ++ [tdo_acc (fun i => line (e.port.reads + i)) e.tdo_last 8]).getD j2 0).testBit i
      = _
    rw [getD_snoc, hlen2]
    by_cases h1 : j2 < j
    · rw [if_pos h1, hout]
      have e1 : (i < 8 ∧ 8 * j2 + i < 8 * j) ↔ (i < 8 ∧ 8 * j2 + i < 8 * j + 8) := by omega
      simp only [e1]
    · rw [if_neg h1]
      by_cases h2 : j2 = j
      · rw [if_pos h2, tdo_acc_byte _ _ _ hacc, h2, hrd, Nat.add_assoc]
        by_cases h3 : i < 8
        · have h4 : i < 8 ∧ 8 * j + i < 8 * j + 8 := by omega
          simp [h3, h4]
        · have h4 : ¬ (i < 8 ∧ 8 * j + i < 8 * j + 8) := by omega
          simp [h3, h4]
      · rw [if_neg h2]
        have h4 : ¬ (i < 8 ∧ 8 * j2 + i < 8 * j + 8) := by omega
        simp [h4]
  · show e.rd + 1 = _
    omega
  · show tdo_acc (fun i => line (e.port.reads + i)) e.tdo_last 8 < 256
    apply Nat.lt_pow_two_of_testBit _ (n := 8)
    intro i hi
    rw [tdo_acc_byte _ _ _ hacc]
    have : ¬ i < 8 := by omega
    simp [this]

end Jtag

namespace Jtag

/-- The loop `while (bitlen >= 8)` does nothing when fewer than 8 bits remain. -/
theorem whole_bytes_lt (c : Port → Regs → Port × Regs) (tms tdi : Nat → Nat) (t : Nat)
    (e : Engine) (ht : t < 8) : whole_bytes c tms tdi t e = (t, e) := by
  interval_cases t <;> rfl

/-- The loop `while (bitlen >= 8)` takes one whole byte when 8 or more bits
remain. -/
theorem whole_bytes_add8 (c : Port → Regs → Port × Regs) (tms tdi : Nat → Nat) (n : Nat)
    (e : Engine) :
    whole_bytes c tms tdi (n + 8) e = whole_bytes c tms tdi n (shift_byte c tms tdi e) := by
  rw [whole_bytes]

/-- The whole-byte loop on `8 * q + t` bits (t below 8) leaves `t` bits for
the tail and keeps the engine on the reference for `8 * q` more bits. -/
theorem whole_bytes_ok (d : List LineEvent) (line : Nat → Bool) (tms tdi : Nat → Nat) (p : Port)
    (q t : Nat) (ht : t < 8) (j : Nat) (e : Engine)
    (h : shifted d line tms tdi p (8 * j) e) (hacc : e.tdo_last < 256) :
    (whole_bytes (cycle_ref d line) tms tdi (8 * q + t) e).1 = t
      ∧ shifted d line tms tdi p (8 * (j + q))
          (whole_bytes (cycle_ref d line) tms tdi (8 * q + t) e).2 := by
  induction q generalizing j e with
  | zero =>
    rw [Nat.mul_zero, Nat.zero_add, whole_bytes_lt _ _ _ _ _ ht]
    exact ⟨rfl, h⟩
  | succ q ih =>
    have e1 : 8 * (q + 1) + t = (8 * q + t) + 8 := by omega
    rw [e1, whole_bytes_add8]
    have hb := shift_byte_ok d line tms tdi p j e h hacc
    have e2 : 8 * j + 8 = 8 * (j + 1) := by omega
    rw [e2] at hb
    have := ih (j + 1) _ hb.1 hb.2
    have e3 : j + 1 + q = j + (q + 1) := by omega
    rw [e3] at this
    exact this

/-- The tail of `t` bits (t below 8) keeps the engine on the reference. -/
theorem shift_tail_ok (d : List LineEvent) (line : Nat → Bool) (tms tdi : Nat → Nat) (p : Port)
    (t : Nat) (ht : t < 8) (j : Nat) (e : Engine)
    (h : shifted d line tms tdi p (8 * j) e) :
    shifted d line tms tdi p (8 * j + t) (shift_tail (cycle_ref d line) tms tdi t e) := by
  by_cases h0 : t = 0
  · subst h0
    unfold shift_tail
    rw [if_neg (by simp)]
    exact h
  · obtain ⟨htr, hrd, hlen, hout, hrdx⟩ := h
    have hj : e.rd = j := by omega
    have hlen2 : e.out.length = j := by omega
    have hbits : u8 (8 - t) = 8 - t := by unfold u8; omega
    unfold shift_tail
    rw [if_pos h0, bit_loop_ref, hbits]
    refine ⟨?_, ?_, ?_, ?_, ?_⟩
    · show e.port.trace ++ wire_log d _ _ _ t = _
      rw [htr, wire_log_append, List.append_assoc]
      congr 1
      congr 1
      apply wire_log_congr
      · intro i hi
        show (u8 (tms e.rd)).testBit i = buf_bit tms (8 * j + i)
        unfold buf_bit
        rw [hj, show (8 * j + i) / 8 = j by omega, show (8 * j + i) % 8 = i by omega]
      · intro i hi
        show (u8 (tdi e.rd)).testBit i = buf_bit tdi (8 * j + i)
        unfold buf_bit
        rw [hj, show (8 * j + i) / 8 = j by omega, show (8 * j + i) % 8 = i by omega]
      · intro i hi
        show line (e.port.reads + i) = line (p.reads + (8 * j + i))
        rw [hrd, Nat.add_assoc]
    · show e.port.reads + t = _
      omega
    · show (e.out ++ [_]).length = _
      rw [List.length_append, List.length_singleton]
      omega
    · intro j2 i
      show ((e.out ++ [tdo_acc (fun i => line (e.port.reads + i)) 0 t >>> (8 - t)]).getD j2 0).testBit
        i = _
      rw [getD_snoc, hlen2]
      by_cases h1 : j2 < j
      · rw [if_pos h1, hout]
        have e1 : (i < 8 ∧ 8 * j2 + i < 8 * j) ↔ (i < 8 ∧ 8 * j2 + i < 8 * j + t) := by omega
        simp only [e1]
      · rw [if_neg h1]
        by_cases h2 : j2 = j
        · rw [if_pos h2, tdo_acc_tail _ _ _ ht, h2, hrd, Nat.add_assoc]
          by_cases h3 : i < t
          · have h4 : i < 8 ∧ 8 * j + i < 8 * j + t := by omega
            simp [h3, h4]
          · have h4 : ¬ (i < 8 ∧ 8 * j + i < 8 * j + t) := by omega
            simp [h3, h4]
        · rw [if_neg h2]
          have h4 : ¬ (i < 8 ∧ 8 * j2 + i < 8 * j + t) := by omega
          simp [h4]
    · show e.rd = _
      omega

/-- The flat shift of `n` bits, run with the reference cycle, does what the
wire-level reference says, from any pins and whatever the accumulator held. -/
theorem flat_shift_ref (d : List LineEvent) (line : Nat → Bool) (n : Nat) (tms tdi : Nat → Nat)
    (junk : Nat) (p : Port) :
    shifted d line tms tdi p n (flat_shift (cycle_ref d line) n tms tdi junk p) := by
  have h0 : shifted d line tms tdi p (8 * 0)
      { port := p, rd := 0, tdo_last := u8 junk, out := [] } := by
    refine ⟨by simp [wire_log], rfl, rfl, ?_, rfl⟩
    intro j i
    have : ¬ (i < 8 ∧ 8 * j + i < 8 * 0) := by omega
    simp [this]
  have hacc : u8 junk < 256 := Nat.mod_lt _ (by decide)
  have hn : n = 8 * (n / 8) + n % 8 := by omega
  have hw := whole_bytes_ok d line tms tdi p (n / 8) (n % 8) (Nat.mod_lt _ (by decide)) 0 _ h0 hacc
  rw [← hn, Nat.zero_add] at hw
  unfold flat_shift
  show shifted d line tms tdi p n (shift_tail (cycle_ref d line) tms tdi
    (whole_bytes (cycle_ref d line) tms tdi n
      { port := p, rd := 0, tdo_last := u8 junk, out := [] }).1
    (whole_bytes (cycle_ref d line) tms tdi n
      { port := p, rd := 0, tdo_last := u8 junk, out := [] }).2)
  rw [hw.1]
  have ht := shift_tail_ok d line tms tdi p (n % 8) (Nat.mod_lt _ (by decide)) (n / 8) _ hw.2
  rw [← hn] at ht
  exact ht

/-- The split shift never looks at its bulk count: it is the flat shift of
`8 + bitlen_tail` bits. -/
theorem split_shift_eq_flat (c : Port → Regs → Port × Regs) (bytelen_dma bitlen_tail : Nat)
    (tms tdi : Nat → Nat) (junk : Nat) (p : Port) :
    split_shift c bytelen_dma bitlen_tail tms tdi junk p
      = flat_shift c (bitlen_tail + 8) tms tdi junk p := by
  unfold split_shift flat_shift
  rw [whole_bytes_add8]

end Jtag

namespace Jtag

/-- The reference log of `n` cycles holds `n` falling TCK edges, with or
without delay calls. -/
theorem tck_cycles_wire_log (jtag_delay : Option DelayFn) (delay_tick : Nat)
    (f g h : Nat → Bool) (n : Nat) :
    tck_cycles (wire_log (delay_log jtag_delay delay_tick) f g h n) = n := by
  unfold tck_cycles
  induction n with
  | zero => rfl
  | succ n ih =>
    simp only [wire_log, List.count_append, ih]
    cases jtag_delay <;> cases g n <;> cases f n <;> simp [cycle_log, delay_log, List.count_cons]

/-- Dropping the delay calls from the throttled log leaves the unthrottled
log. -/
theorem wire_log_drop_delay (jtag_delay : Option DelayFn) (delay_tick : Nat)
    (f g h : Nat → Bool) (n : Nat) :
    (wire_log (delay_log jtag_delay delay_tick) f g h n).filter (fun ev => !is_delay ev)
      = wire_log [] f g h n := by
  induction n with
  | zero => rfl
  | succ n ih =>
    simp only [wire_log, List.filter_append, ih]
    cases jtag_delay <;> cases g n <;> cases f n <;> simp [cycle_log, delay_log, is_delay]

/-- The throttled log of `n` cycles holds two delay calls per cycle when a
routine is configured and none when the pointer is null. -/
theorem wire_log_delay_count (jtag_delay : Option DelayFn) (delay_tick : Nat)
    (f g h : Nat → Bool) (n : Nat) :
    (wire_log (delay_log jtag_delay delay_tick) f g h n).countP is_delay
      = if jtag_delay.isSome then 2 * n else 0 := by
  induction n with
  | zero => simp [wire_log]
  | succ n ih =>
    simp only [wire_log, List.countP_append, ih]
    cases jtag_delay <;> cases g n <;> cases f n <;>
      simp [cycle_log, delay_log, is_delay, List.countP_cons] <;> omega

/-- Two engine states that both meet the reference for the same shift stored
the same TDO bytes. -/
theorem shifted_out_eq (d1 d2 : List LineEvent) (line : Nat → Bool) (tms tdi : Nat → Nat)
    (p : Port) (n : Nat) (e1 e2 : Engine)
    (h1 : shifted d1 line tms tdi p n e1) (h2 : shifted d2 line tms tdi p n e2) :
    e1.out = e2.out := by
  obtain ⟨_, _, hl1, ho1, _⟩ := h1
  obtain ⟨_, _, hl2, ho2, _⟩ := h2
  apply List.ext_getElem (by rw [hl1, hl2])
  intro j hj1 hj2
  have e1j : e1.out.getD j 0 = e1.out[j] := List.getD_eq_getElem _ _ hj1
  have e2j : e2.out.getD j 0 = e2.out[j] := List.getD_eq_getElem _ _ hj2
  rw [← e1j, ← e2j]
  apply Nat.eq_of_testBit_eq
  intro i
  rw [ho1, ho2]

end Jtag

namespace Jtag

/-- The unthrottled flat shift meets the reference with no delay events. -/
theorem jtag_rw_quick_shifted (line : Nat → Bool) (n : Nat) (tms tdi : Nat → Nat) (junk : Nat)
    (p : Port) : shifted [] line tms tdi p n (jtag_rw_quick line n tms tdi junk p) := by
  have hc : cycle_quick line = cycle_ref [] line :=
    funext fun q => funext fun r => cycle_quick_eq line q r
  unfold jtag_rw_quick
  rw [hc]
  exact flat_shift_ref [] line n tms tdi junk p

/-- The throttled flat shift meets the reference with the delay statement's
events. -/
theorem jtag_rw_slow_shifted (jtag_delay : Option DelayFn) (delay_tick : Nat) (line : Nat → Bool)
    (n : Nat) (tms tdi : Nat → Nat) (junk : Nat) (p : Port) :
    shifted (delay_log jtag_delay delay_tick) line tms tdi p n
      (jtag_rw_slow jtag_delay delay_tick line n tms tdi junk p) := by
  have hc : cycle_slow jtag_delay delay_tick line
      = cycle_ref (delay_log jtag_delay delay_tick) line :=
    funext fun q => funext fun r => cycle_slow_eq jtag_delay delay_tick line q r
  unfold jtag_rw_slow
  rw [hc]
  exact flat_shift_ref _ line n tms tdi junk p

/-- The unthrottled split shift meets the reference for `bitlen_tail + 8`
bits. -/
theorem jtag_rw_dr_quick_shifted (line : Nat → Bool) (bytelen_dma bitlen_tail : Nat)
    (tms tdi : Nat → Nat) (junk : Nat) (p : Port) :
    shifted [] line tms tdi p (bitlen_tail + 8)
      (jtag_rw_dr_quick line bytelen_dma bitlen_tail tms tdi junk p) := by
  have hc : cycle_quick line = cycle_ref [] line :=
    funext fun q => funext fun r => cycle_quick_eq line q r
  unfold jtag_rw_dr_quick
  rw [split_shift_eq_flat, hc]
  exact flat_shift_ref [] line _ tms tdi junk p

/-- The throttled split shift meets the reference for `bitlen_tail + 8`
bits. -/
theorem jtag_rw_dr_slow_shifted (jtag_delay : Option DelayFn) (delay_tick : Nat)
    (line : Nat → Bool) (bytelen_dma bitlen_tail : Nat) (tms tdi : Nat → Nat) (junk : Nat)
    (p : Port) :
    shifted (delay_log jtag_delay delay_tick) line tms tdi p (bitlen_tail + 8)
      (jtag_rw_dr_slow jtag_delay delay_tick line bytelen_dma bitlen_tail tms tdi junk p) := by
  have hc : cycle_slow jtag_delay delay_tick line
      = cycle_ref (delay_log jtag_delay delay_tick) line :=
    funext fun q => funext fun r => cycle_slow_eq jtag_delay delay_tick line q r
  unfold jtag_rw_dr_slow
  rw [split_shift_eq_flat, hc]
  exact flat_shift_ref _ line _ tms tdi junk p

/-- C16 (flat shift wire order). For every bit count n, buffers, TDO stream,
starting pins and prior accumulator value, `jtag_rw_quick` and `jtag_rw_slow`
append to the pin log exactly the n cycles of the reference: cycle k drives
TDI and TMS to bit k mod 8 of byte k / 8 of their buffers, lowers TCK, raises
TCK and then samples TDO (the throttled variant with its delay statement
after each edge); that is n falling TCK edges and n TDO reads. They store
ceil(n / 8) bytes and no more; bit i of stored byte j is the sample of cycle
8*j + i when i < 8 and 8*j + i < n and is 0 otherwise, so a final partial byte
is right-aligned with its high bits zero, and no stored byte depends on the
accumulator's prior value. -/
theorem flat_shift_wire_order (jtag_delay : Option DelayFn) (delay_tick : Nat)
    (line : Nat → Bool) (n : Nat) (tms tdi : Nat → Nat) (junk : Nat) (p : Port) :
    ((jtag_rw_quick line n tms tdi junk p).port.trace
        = p.trace ++ wire_log [] (buf_bit tms) (buf_bit tdi) (fun k => line (p.reads + k)) n
      ∧ tck_cycles (jtag_rw_quick line n tms tdi junk p).port.trace = tck_cycles p.trace + n
      ∧ (jtag_rw_quick line n tms tdi junk p).port.reads = p.reads + n
      ∧ (jtag_rw_quick line n tms tdi junk p).out.length = (n + 7) / 8
      ∧ ∀ j i, ((jtag_rw_quick line n tms tdi junk p).out.getD j 0).testBit i
          = (decide (i < 8 ∧ 8 * j + i < n) && line (p.reads + (8 * j + i))))
    ∧ ((jtag_rw_slow jtag_delay delay_tick line n tms tdi junk p).port.trace
        = p.trace ++ wire_log (delay_log jtag_delay delay_tick) (buf_bit tms) (buf_bit tdi)
            (fun k => line (p.reads + k)) n
      ∧ tck_cycles (jtag_rw_slow jtag_delay delay_tick line n tms tdi junk p).port.trace
          = tck_cycles p.trace + n
      ∧ (jtag_rw_slow jtag_delay delay_tick line n tms tdi junk p).port.reads = p.reads + n
      ∧ (jtag_rw_slow jtag_delay delay_tick line n tms tdi junk p).out.length = (n + 7) / 8
      ∧ ∀ j i, ((jtag_rw_slow jtag_delay delay_tick line n tms tdi junk p).out.getD j 0).testBit i
          = (decide (i < 8 ∧ 8 * j + i < n) && line (p.reads + (8 * j + i)))) := by
  obtain ⟨q1, q2, q3, q4, _⟩ := jtag_rw_quick_shifted line n tms tdi junk p
  obtain ⟨s1, s2, s3, s4, _⟩ := jtag_rw_slow_shifted jtag_delay delay_tick line n tms tdi junk p
  refine ⟨⟨q1, ?_, q2, q3, q4⟩, ⟨s1, ?_, s2, s3, s4⟩⟩
  · rw [q1]
    have := tck_cycles_wire_log none 0 (buf_bit tms) (buf_bit tdi) (fun k => line (p.reads + k)) n
    unfold tck_cycles at this ⊢
    rw [List.count_append]
    exact congrArg _ this
  · rw [s1]
    have := tck_cycles_wire_log jtag_delay delay_tick (buf_bit tms) (buf_bit tdi)
      (fun k => line (p.reads + k)) n
    unfold tck_cycles at this ⊢
    rw [List.count_append, this]

/-- The TDI level after a concatenation of logs. -/
theorem tdi_after_append (pin : Bool) (l1 l2 : List LineEvent) :
    tdi_after pin (l1 ++ l2) = tdi_after (tdi_after pin l1) l2 := by
  induction l1 generalizing pin with
  | nil => rfl
  | cons ev t ih =>
    cases ev with
    | set q => cases q <;> simp [tdi_after, ih]
    | clear q => cases q <;> simp [tdi_after, ih]
    | get level => simp [tdi_after, ih]
    | delay f tick => simp [tdi_after, ih]

/-- A concatenation of logs is a loop-back log when both parts are, the
second starting from the TDI level the first leaves. -/
theorem tdo_follows_tdi_append (pin : Bool) (l1 l2 : List LineEvent) :
    tdo_follows_tdi pin (l1 ++ l2)
      = (tdo_follows_tdi pin l1 && tdo_follows_tdi (tdi_after pin l1) l2) := by
  induction l1 generalizing pin with
  | nil => simp [tdo_follows_tdi, tdi_after]
  | cons ev t ih =>
    cases ev with
    | set q => cases q <;> simp [tdo_follows_tdi, tdi_after, ih]
    | clear q => cases q <;> simp [tdo_follows_tdi, tdi_after, ih]
    | get level => simp [tdo_follows_tdi, tdi_after, ih, Bool.and_assoc]
    | delay f tick => simp [tdo_follows_tdi, tdi_after, ih]

/-- One reference cycle is a loop-back log exactly when its sample is the
TDI level it drove, whatever TDI was before. -/
theorem tdo_follows_tdi_cycle (jtag_delay : Option DelayFn) (delay_tick : Nat)
    (pin tdi tms level : Bool) :
    tdo_follows_tdi pin (cycle_log (delay_log jtag_delay delay_tick) tdi tms level)
      = (level == tdi) := by
  cases jtag_delay <;> cases pin <;> cases tdi <;> cases tms <;> cases level <;> rfl

/-- If the reference log of `n` cycles is a loop-back log, every cycle
sampled the TDI bit it drove. -/
theorem wire_log_loop_back (jtag_delay : Option DelayFn) (delay_tick : Nat) (pin : Bool)
    (f g h : Nat → Bool) (n : Nat)
    (hl : tdo_follows_tdi pin (wire_log (delay_log jtag_delay delay_tick) f g h n) = true) :
    ∀ k, k < n → h k = g k := by
  induction n with
  | zero =>
    intro k hk
    omega
  | succ n ih =>
    simp only [wire_log, tdo_follows_tdi_append, tdo_follows_tdi_cycle, Bool.and_eq_true,
      beq_iff_eq] at hl
    intro k hk
    by_cases hkn : k = n
    · rw [hkn]
      exact hl.2
    · exact ih hl.1 k (by omega)

/-- C17 (flat shift loop-back). With TDO wired to TDI, so that in the pin log
of the shift every TDO read returns the level the engine last drove on the
TDI pin, the flat shift of n bits returns TDO bit k equal to TDI bit k for
every k < n; this holds for `vsfhal_jtag_raw` (the throttled engine), for
`jtag_rw_slow` and for `jtag_rw_quick`, for every n (1 to 64 included), every
TMS and TDI, and whatever level TDI had before the shift. -/
theorem flat_shift_loop_back (ctl : jtag_control_t) (line : Nat → Bool) (n : Nat)
    (tms tdi : Nat → Nat) (junk : Nat) (p : Port) (pin : Bool)
    (hslow : tdo_follows_tdi pin
      ((vsfhal_jtag_raw ctl line n tms tdi junk p).port.trace.drop p.trace.length) = true)
    (hquick : tdo_follows_tdi pin
      ((jtag_rw_quick line n tms tdi junk p).port.trace.drop p.trace.length) = true) :
    ∀ k, k < n →
      ((vsfhal_jtag_raw ctl line n tms tdi junk p).out.getD (k / 8) 0).testBit (k % 8)
          = buf_bit tdi k
      ∧ ((jtag_rw_slow ctl.jtag_delay ctl.delay_tick line n tms tdi junk p).out.getD
            (k / 8) 0).testBit (k % 8) = buf_bit tdi k
      ∧ ((jtag_rw_quick line n tms tdi junk p).out.getD (k / 8) 0).testBit (k % 8)
          = buf_bit tdi k := by
  intro k hk
  obtain ⟨q1, _, _, q4, _⟩ := jtag_rw_quick_shifted line n tms tdi junk p
  obtain ⟨s1, _, _, s4, _⟩ :=
    jtag_rw_slow_shifted ctl.jtag_delay ctl.delay_tick line n tms tdi junk p
  have hs : tdo_follows_tdi pin
      ((jtag_rw_slow ctl.jtag_delay ctl.delay_tick line n tms tdi junk p).port.trace.drop
        p.trace.length) = true := hslow
  rw [s1, List.drop_left] at hs
  rw [q1, List.drop_left] at hquick
  have ls := wire_log_loop_back ctl.jtag_delay ctl.delay_tick pin _ _ _ n hs k hk
  have lq := wire_log_loop_back none 0 pin _ _ _ n hquick k hk
  have hidx : 8 * (k / 8) + k % 8 = k := by omega
  have hin : k % 8 < 8 ∧ 8 * (k / 8) + k % 8 < n := by omega
  refine ⟨?_, ?_, ?_⟩
  · show ((jtag_rw_slow ctl.jtag_delay ctl.delay_tick line n tms tdi junk p).out.getD
      (k / 8) 0).testBit (k % 8) = _
    rw [s4, hidx, ls]
    simp [hin, hidx, hk]
  · rw [s4, hidx, ls]
    simp [hin, hidx, hk]
  · rw [q4, hidx, lq]
    simp [hin, hidx, hk]

end Jtag

namespace Jtag

set_option maxRecDepth 100000 in
/-- Witness for C17: 11 bits of the buffer A5 03 shifted with TDO wired to
TDI, from pins with an empty log and TDI low before; bit 9 (bit 1 of the
second byte). -/
theorem flat_shift_loop_back_witness :
    ((vsfhal_jtag_raw (slow_ctl 0 0) loop_line 11 (fun _ => 0) loop_tdi 0 port0).out.getD
        (9 / 8) 0).testBit (9 % 8) = buf_bit loop_tdi 9
    ∧ ((jtag_rw_slow (slow_ctl 0 0).jtag_delay (slow_ctl 0 0).delay_tick loop_line 11
          (fun _ => 0) loop_tdi 0 port0).out.getD (9 / 8) 0).testBit (9 % 8)
        = buf_bit loop_tdi 9
    ∧ ((jtag_rw_quick loop_line 11 (fun _ => 0) loop_tdi 0 port0).out.getD
        (9 / 8) 0).testBit (9 % 8) = buf_bit loop_tdi 9 :=
  flat_shift_loop_back (slow_ctl 0 0) loop_line 11 (fun _ => 0) loop_tdi 0 port0 false
    (by decide) (by decide) 9 (by decide)

/-- The pin log of an engine that meets the reference, with the delay calls
dropped, and its number of delay calls. -/
theorem shifted_delay_view (jtag_delay : Option DelayFn) (delay_tick : Nat) (line : Nat → Bool)
    (tms tdi : Nat → Nat) (p : Port) (n : Nat) (e : Engine)
    (h : shifted (delay_log jtag_delay delay_tick) line tms tdi p n e) :
    e.port.trace.filter (fun ev => !is_delay ev)
        = p.trace.filter (fun ev => !is_delay ev)
          ++ wire_log [] (buf_bit tms) (buf_bit tdi) (fun k => line (p.reads + k)) n
      ∧ e.port.trace.countP is_delay
        = p.trace.countP is_delay + (if jtag_delay.isSome then 2 * n else 0) := by
  obtain ⟨htr, _, _, _, _⟩ := h
  rw [htr, List.filter_append, List.countP_append, wire_log_drop_delay, wire_log_delay_count]
  exact ⟨rfl, rfl⟩

/-- C20 (unthrottled/throttled equivalence). For every bit count, buffers,
TDO stream and starting pins, the throttled engines (`jtag_rw_slow`,
`jtag_rw_dr_slow`) and the unthrottled ones (`jtag_rw_quick`,
`jtag_rw_dr_quick`) leave the same pin log once delay calls are dropped, make
the same number of TDO reads and store the same TDO bytes. The throttled log
is the reference log with the delay statement after the falling and after the
rising edge of every cycle: two delay calls per bit when a routine is
configured, none when the pointer is null; the unthrottled log holds no delay
call of its own. (For the split engines the bit count is 8 + bitlen_tail.) -/
theorem throttled_matches_unthrottled (jtag_delay : Option DelayFn) (delay_tick : Nat)
    (line : Nat → Bool) (n bytelen_dma bitlen_tail : Nat) (tms tdi : Nat → Nat) (junk : Nat)
    (p : Port) :
    ((jtag_rw_slow jtag_delay delay_tick line n tms tdi junk p).port.trace.filter
          (fun ev => !is_delay ev)
        = (jtag_rw_quick line n tms tdi junk p).port.trace.filter (fun ev => !is_delay ev)
      ∧ (jtag_rw_slow jtag_delay delay_tick line n tms tdi junk p).port.reads
        = (jtag_rw_quick line n tms tdi junk p).port.reads
      ∧ (jtag_rw_slow jtag_delay delay_tick line n tms tdi junk p).out
        = (jtag_rw_quick line n tms tdi junk p).out
      ∧ (jtag_rw_slow jtag_delay delay_tick line n tms tdi junk p).port.trace
        = p.trace ++ wire_log (delay_log jtag_delay delay_tick) (buf_bit tms) (buf_bit tdi)
            (fun k => line (p.reads + k)) n
      ∧ (jtag_rw_slow jtag_delay delay_tick line n tms tdi junk p).port.trace.countP is_delay
        = p.trace.countP is_delay + (if jtag_delay.isSome then 2 * n else 0)
      ∧ (jtag_rw_quick line n tms tdi junk p).port.trace.countP is_delay
        = p.trace.countP is_delay)
    ∧ ((jtag_rw_dr_slow jtag_delay delay_tick line bytelen_dma bitlen_tail tms tdi junk
            p).port.trace.filter (fun ev => !is_delay ev)
        = (jtag_rw_dr_quick line bytelen_dma bitlen_tail tms tdi junk p).port.trace.filter
            (fun ev => !is_delay ev)
      ∧ (jtag_rw_dr_slow jtag_delay delay_tick line bytelen_dma bitlen_tail tms tdi junk
            p).port.reads
        = (jtag_rw_dr_quick line bytelen_dma bitlen_tail tms tdi junk p).port.reads
      ∧ (jtag_rw_dr_slow jtag_delay delay_tick line bytelen_dma bitlen_tail tms tdi junk p).out
        = (jtag_rw_dr_quick line bytelen_dma bitlen_tail tms tdi junk p).out
      ∧ (jtag_rw_dr_slow jtag_delay delay_tick line bytelen_dma bitlen_tail tms tdi junk
            p).port.trace
        = p.trace ++ wire_log (delay_log jtag_delay delay_tick) (buf_bit tms) (buf_bit tdi)
            (fun k => line (p.reads + k)) (bitlen_tail + 8)
      ∧ (jtag_rw_dr_slow jtag_delay delay_tick line bytelen_dma bitlen_tail tms tdi junk
            p).port.trace.countP is_delay
        = p.trace.countP is_delay + (if jtag_delay.isSome then 2 * (bitlen_tail + 8) else 0)
      ∧ (jtag_rw_dr_quick line bytelen_dma bitlen_tail tms tdi junk p).port.trace.countP is_delay
        = p.trace.countP is_delay) := by
  have hq := jtag_rw_quick_shifted line n tms tdi junk p
  have hs := jtag_rw_slow_shifted jtag_delay delay_tick line n tms tdi junk p
  have hdq := jtag_rw_dr_quick_shifted line bytelen_dma bitlen_tail tms tdi junk p
  have hds := jtag_rw_dr_slow_shifted jtag_delay delay_tick line bytelen_dma bitlen_tail
    tms tdi junk p
  have vq := shifted_delay_view none 0 line tms tdi p n _ hq
  have vs := shifted_delay_view jtag_delay delay_tick line tms tdi p n _ hs
  have vdq := shifted_delay_view none 0 line tms tdi p (bitlen_tail + 8) _ hdq
  have vds := shifted_delay_view jtag_delay delay_tick line tms tdi p (bitlen_tail + 8) _ hds
  refine ⟨⟨?_, ?_, ?_, hs.1, vs.2, ?_⟩, ⟨?_, ?_, ?_, hds.1, vds.2, ?_⟩⟩
  · rw [vs.1, vq.1]
  · rw [hs.2.1, hq.2.1]
  · exact shifted_out_eq _ _ line tms tdi p n _ _ hs hq
  · simpa using vq.2
  · rw [vds.1, vdq.1]
  · rw [hds.2.1, hdq.2.1]
  · exact shifted_out_eq _ _ line tms tdi p (bitlen_tail + 8) _ _ hds hdq
  · simpa using vdq.2

end Jtag

namespace Jtag

/-! ## Partition accounting and the scratch the transfer reads back -/

/-- C21 (partition accounting). For every scan that fits the 64-bit scratch,
the bulk byte count and tail bit count that `vsfhal_jtag_dr` passes to the
split shift satisfy 8 + 8 * dma_bytes + bits_tail = total encoded length,
and neither unsigned subtraction wraps: 8 does not exceed the bit length at
line 239 (37 + dr_before + dr_after) nor the final bit length, and
8 * dma_bytes does not exceed the final bit length less 8, so the wrapping
subtractions of the code are the plain ones. -/
theorem dr_partition_accounting (idle request dr dr_before dr_after : Nat)
    (hfit : 40 + dr_before + dr_after + idle ≤ 64) :
    8 + 8 * (dr_encode idle request dr dr_before dr_after).dma_bytes
        + (dr_encode idle request dr dr_before dr_after).bits_tail
      = (dr_encode idle request dr dr_before dr_after).bitlen
    ∧ 8 ≤ 37 + dr_before + dr_after
    ∧ (dr_encode idle request dr dr_before dr_after).dma_bytes
      = (37 + dr_before + dr_after - 8) >>> 3
    ∧ usub32 (37 + dr_before + dr_after) 8 = 37 + dr_before + dr_after - 8
    ∧ 8 ≤ (dr_encode idle request dr dr_before dr_after).bitlen
    ∧ usub32 (dr_encode idle request dr dr_before dr_after).bitlen 8
      = (dr_encode idle request dr dr_before dr_after).bitlen - 8
    ∧ 8 * (dr_encode idle request dr dr_before dr_after).dma_bytes
      ≤ (dr_encode idle request dr dr_before dr_after).bitlen - 8
    ∧ (dr_encode idle request dr dr_before dr_after).bits_tail
      = usub32 (usub32 (dr_encode idle request dr dr_before dr_after).bitlen 8)
          (u32 ((dr_encode idle request dr dr_before dr_after).dma_bytes <<< 3))
    ∧ (dr_encode idle request dr dr_before dr_after).bits_tail
      = (dr_encode idle request dr dr_before dr_after).bitlen - 8
        - 8 * (dr_encode idle request dr dr_before dr_after).dma_bytes := by
  rw [dr_encode_fit idle request dr dr_before dr_after hfit]
  dsimp only
  have h8 : ∀ x : Nat, x >>> 3 = x / 8 := fun x => Nat.shiftRight_eq_div_pow x 3
  have hs : ∀ x : Nat, x <<< 3 = x * 8 := fun x => Nat.shiftLeft_eq x 3
  simp only [h8, hs]
  unfold usub32 u32
  refine ⟨?_, ?_, ?_, ?_, ?_, ?_, ?_, ?_, ?_⟩ <;> omega

/-- Witness for C21: dr_before = 2, dr_after = 1, 3 idle cycles. -/
theorem dr_partition_accounting_witness :
    8 + 8 * (dr_encode 3 2 0 2 1).dma_bytes + (dr_encode 3 2 0 2 1).bits_tail
      = (dr_encode 3 2 0 2 1).bitlen
    ∧ 8 ≤ 37 + 2 + 1
    ∧ (dr_encode 3 2 0 2 1).dma_bytes = (37 + 2 + 1 - 8) >>> 3
    ∧ usub32 (37 + 2 + 1) 8 = 37 + 2 + 1 - 8
    ∧ 8 ≤ (dr_encode 3 2 0 2 1).bitlen
    ∧ usub32 (dr_encode 3 2 0 2 1).bitlen 8 = (dr_encode 3 2 0 2 1).bitlen - 8
    ∧ 8 * (dr_encode 3 2 0 2 1).dma_bytes ≤ (dr_encode 3 2 0 2 1).bitlen - 8
    ∧ (dr_encode 3 2 0 2 1).bits_tail
      = usub32 (usub32 (dr_encode 3 2 0 2 1).bitlen 8)
          (u32 ((dr_encode 3 2 0 2 1).dma_bytes <<< 3))
    ∧ (dr_encode 3 2 0 2 1).bits_tail
      = (dr_encode 3 2 0 2 1).bitlen - 8 - 8 * (dr_encode 3 2 0 2 1).dma_bytes :=
  dr_partition_accounting 3 2 0 2 1 (by decide)

end Jtag

namespace Jtag

set_option maxRecDepth 100000 in
/-- C22 at its failing inputs, the TDO line low throughout and the stack
slot of `buf_tdo` holding either all zeros or all ones before the call.
A read (request 2) without bypass bits or idle cycles: the engine stores 2
bytes, the data window (scratch bits 6 .. 37) reaches into bytes 2 .. 4, and
the bytes handed to the caller are 00 00 00 00 in one case and 00 FC FF FF in
the other. With dr_before = 20 the engine again stores 2 bytes, the
acknowledge window (scratch bits 23 .. 25) lies in bytes 2 and 3, and the
returned acknowledge is 0 in one case and 7 in the other. -/
theorem dr_reads_unwritten_scratch :
    ((call_rw_dr (quick_ctl 0) RwDrFn.jtag_rw_dr_quick (env_low 0).line
          (dr_encode 0 2 0 0 0).dma_bytes (dr_encode 0 2 0 0 0).bits_tail
          (scratch_byte (dr_encode 0 2 0 0 0).buf_tms)
          (scratch_byte (dr_encode 0 2 0 0 0).buf_tdi) 0 port0).out.length = 2
      ∧ (vsfhal_jtag_dr (quick_ctl 0) (env_low 0) 2 0 0 0
            (some [0, 0, 0, 0]) port0).map (fun r => r.data)
          = some (some [0x00, 0x00, 0x00, 0x00])
      ∧ (vsfhal_jtag_dr (quick_ctl 0) (env_low 0xFFFFFFFFFFFFFFFF) 2 0 0 0
            (some [0, 0, 0, 0]) port0).map (fun r => r.data)
          = some (some [0x00, 0xFC, 0xFF, 0xFF]))
    ∧ ((call_rw_dr (quick_ctl 0) RwDrFn.jtag_rw_dr_quick (env_low 0).line
          (dr_encode 0 2 0 20 0).dma_bytes (dr_encode 0 2 0 20 0).bits_tail
          (scratch_byte (dr_encode 0 2 0 20 0).buf_tms)
          (scratch_byte (dr_encode 0 2 0 20 0).buf_tdi) 0 port0).out.length = 2
      ∧ (vsfhal_jtag_dr (quick_ctl 0) (env_low 0) 2 0 20 0 none port0).map (fun r => r.ack)
          = some 0
      ∧ (vsfhal_jtag_dr (quick_ctl 0) (env_low 0xFFFFFFFFFFFFFFFF) 2 0 20 0 none
            port0).map (fun r => r.ack) = some 7) := by
  refine ⟨⟨?_, ?_, ?_⟩, ⟨?_, ?_, ?_⟩⟩ <;> decide

end Jtag
